import Mathlib

/-!
Verification of the Split aggregate and its reconciling SQL repository
(package `internal/domain` and
`internal/infrastructure/db/repositories/splits` of the accounting
repository).

The Go code is shallowly embedded: structs become structures, methods
that mutate their receiver become functions returning the updated value
(together with the error value the Go method returns), `error` values
become an explicit `GoErr` type mirroring `domain.DomainError`,
`fmt.Errorf` with `%w` wrapping, and plain `fmt.Errorf`.  `time.Time`
is embedded as `Int` (an opaque ordered timestamp).  Go's
`slices.SortFunc` with the page-number comparator is embedded as
Mathlib's stable `List.insertionSort` on `pageNumber ≤ pageNumber`;
for slices of length ≤ 12 Go's implementation is itself an insertion
sort with identical (stable) behaviour, and every general theorem below
relies only on properties (sortedness and permutation, or uniqueness of
the sorted order under pairwise-distinct keys) that any correct
implementation of `slices.SortFunc` shares.
-/

/-- `domain.DomainErrorKind` from `internal/domain/errors.go`. -/
inductive DomainErrorKind where
  | validation
  | notFound
  | conflict
  | internal
deriving DecidableEq, Repr

/-- Go error values as produced by this code base:
`domain.DomainError` (kind, message, wrapped cause — `domainErr0` is the
`Cause == nil` case, split into its own constructor so equality can be
derived), `fmt.Errorf` with a `%w` verb (message plus wrapped cause),
and plain `fmt.Errorf` (message only, no unwrap chain). -/
inductive GoErr where
  | domainErr0 (kind : DomainErrorKind) (msg : String)
  | domainErr (kind : DomainErrorKind) (msg : String) (cause : GoErr)
  | wrapf (msg : String) (cause : GoErr)
  | plain (msg : String)
deriving DecidableEq, Repr

namespace GoErr

/-- `errors.As(err, &domainErr)` followed by reading `.Kind`: the kind of
the first `*domain.DomainError` in the unwrap chain, if any. -/
def firstDomainKind : GoErr → Option DomainErrorKind
  | .domainErr0 k _ => some k
  | .domainErr k _ _ => some k
  | .wrapf _ cause => cause.firstDomainKind
  | .plain _ => none

/-- The direct cause of an error (its `Unwrap`). -/
def cause : GoErr → Option GoErr
  | .domainErr0 _ _ => none
  | .domainErr _ _ c => some c
  | .wrapf _ c => some c
  | .plain _ => none

/-- True when the value is a `*domain.DomainError` itself (what
`errors.As` finds immediately, as in `Split.RemoveDocument`). -/
def isDomainErr : GoErr → Bool
  | .domainErr0 _ _ => true
  | .domainErr _ _ _ => true
  | _ => false

end GoErr

/-- `domain.NewDomainError` (an optional cause picks the constructor). -/
def newDomainError (kind : DomainErrorKind) (msg : String) : Option GoErr → GoErr
  | none => .domainErr0 kind msg
  | some c => .domainErr kind msg c

/-- `domain.NewValidationError`. -/
def newValidationError (msg : String) (cause : Option GoErr) : GoErr :=
  newDomainError .validation msg cause

/-- `domain.NewNotFoundError`. -/
def newNotFoundError (msg : String) (cause : Option GoErr) : GoErr :=
  newDomainError .notFound msg cause

/-- `domain.NewConflictError`. -/
def newConflictError (msg : String) (cause : Option GoErr) : GoErr :=
  newDomainError .conflict msg cause

/-- `domain.Page` from `internal/domain/page_entity.go`. -/
structure Page where
  id : String
  splitID : String
  documentID : Option String
  pageNumber : Int
  url : String
deriving DecidableEq, Repr

instance : Inhabited Page := ⟨⟨"", "", none, 0, ""⟩⟩

namespace Page

/-- `Page.IsAssigned`. -/
def isAssigned (p : Page) : Bool := p.documentID.isSome

/-- `Page.AssignToDocument`: fails with Conflict if already assigned,
otherwise sets the owning document. -/
def assignToDocument (p : Page) (docID : String) : Except GoErr Page :=
  if p.isAssigned then
    .error (newConflictError "page is already assigned to a document" none)
  else
    .ok { p with documentID := some docID }

/-- `Page.Unassign`. -/
def unassign (p : Page) : Page := { p with documentID := none }

/-- `Page.Valid`: returns the first failing validation error, if any. -/
def valid (p : Page) : Option GoErr :=
  if p.id = "" then some (newValidationError "page id is required" none)
  else if p.splitID = "" then some (newValidationError "split id is required" none)
  else if p.url = "" then some (newValidationError "url is required" none)
  else none

end Page

/-- The comparator of `Document.updatePageNumbers`: Go sorts pages so
that page numbers are ascending.  `r a b` holds when `a` may stay
before `b` under a stable sort. -/
def pageLE (a b : Page) : Prop := a.pageNumber ≤ b.pageNumber

instance : DecidableRel pageLE := fun a b => inferInstanceAs (Decidable (a.pageNumber ≤ b.pageNumber))

instance : IsTotal Page pageLE := ⟨fun a b => Int.le_total a.pageNumber b.pageNumber⟩

instance : IsTrans Page pageLE := ⟨fun _ _ _ h h2 => le_trans h h2⟩

/-- `slices.SortFunc(d.Pages, by PageNumber)`: a stable sort by ascending
page number (see the header comment for faithfulness). -/
def sortPages (l : List Page) : List Page := List.insertionSort pageLE l

/-- `domain.DocumentMetadata`. -/
structure DocumentMetadata where
  name : Option String
  classification : Option String
  shortDescription : Option String
deriving DecidableEq, Repr

/-- `domain.Document` from `internal/domain/document_entity.go`. -/
structure Document where
  id : String
  splitID : String
  name : String
  classification : String
  filename : String
  shortDescription : String
  pages : List Page
  startPage : String
  endPage : String
deriving DecidableEq, Repr

instance : Inhabited Document := ⟨⟨"", "", "", "", "", "", [], "", ""⟩⟩

namespace Document

/-- `Document.updatePageNumbers`: sorts pages by page number and
recomputes `StartPage`/`EndPage` from the first and last page's URL
(clearing them when the document has no pages). -/
def updatePageNumbers (d : Document) : Document :=
  let sorted := sortPages d.pages
  match sorted with
  | [] => { d with pages := [], startPage := "", endPage := "" }
  | p :: rest =>
    { d with pages := p :: rest, startPage := p.url,
             endPage := ((p :: rest).getLast (by simp)).url }

/-- The loop body of `Document.AddPages`: assign each incoming page to
the document and append it; on the first already-assigned page return a
Validation error wrapping the Conflict, leaving the pages appended so
far in place (no rollback) and skipping `updatePageNumbers`. -/
def addPagesLoop (d : Document) : List Page → Document × Option GoErr
  | [] => (d, none)
  | p :: rest =>
    match p.assignToDocument d.id with
    | .error e => (d, some (newValidationError "failed to assign page to document" (some e)))
    | .ok p1 => addPagesLoop { d with pages := d.pages ++ [p1] } rest

/-- `Document.AddPages`. -/
def addPages (d : Document) (ps : List Page) : Document × Option GoErr :=
  match addPagesLoop d ps with
  | (d1, some e) => (d1, some e)
  | (d1, none) => (d1.updatePageNumbers, none)

/-- `Document.RemovePages`: removes the pages whose IDs are requested,
returning them unassigned; NotFound if a non-empty request matches no
owned page; an empty request is a no-op. -/
def removePages (d : Document) (pageIDs : List String) :
    Document × Except GoErr (List Page) :=
  if pageIDs = [] then (d, .ok [])
  else
    let removed := d.pages.filter (fun p => pageIDs.contains p.id)
    let remaining := d.pages.filter (fun p => !pageIDs.contains p.id)
    if removed = [] then
      (d, .error (newNotFoundError "none of the specified pages found in document" none))
    else
      (updatePageNumbers { d with pages := remaining }, .ok (removed.map Page.unassign))

/-- `Document.UpdateMetadata`: applies only the present fields; always
succeeds. -/
def updateMetadata (d : Document) (m : DocumentMetadata) : Document :=
  let d1 := match m.name with | some n => { d with name := n } | none => d
  let d2 := match m.classification with | some c => { d1 with classification := c } | none => d1
  match m.shortDescription with | some sd => { d2 with shortDescription := sd } | none => d2

/-- `Document.Valid`: first failing check, if any. -/
def valid (d : Document) : Option GoErr :=
  if d.id = "" then some (newValidationError "document ID is required" none)
  else if d.splitID = "" then some (newValidationError "split ID is required" none)
  else if d.name = "" then some (newValidationError "document name is required" none)
  else if d.classification = "" then some (newValidationError "document classification is required" none)
  else if d.filename = "" then some (newValidationError "document filename is required" none)
  else if d.pages = [] then some (newValidationError "document must have at least one page" none)
  else match d.pages.findSome? Page.valid with
    | some e => some (newValidationError "invalid page in document" (some e))
    | none => none

end Document

/-- The validation step of `domain.NewDocument`. -/
def newDocumentCheck (d : Document) : Except GoErr Document :=
  match d.valid with
  | some e => .error (.wrapf "invalid document" e)
  | none => .ok d

/-- `domain.NewDocument`: builds the document, normalizes page order and
bounds, and validates it. -/
def newDocument (id splitID name classification filename shortDescription : String)
    (pages : List Page) : Except GoErr Document :=
  newDocumentCheck (Document.updatePageNumbers
    { id := id, splitID := splitID, name := name, classification := classification,
      filename := filename, shortDescription := shortDescription,
      pages := pages, startPage := "", endPage := "" })

/-- `domain.SplitStatusDraft` (Go models the status as a string). -/
def splitStatusDraft : String := "draft"

/-- `domain.SplitStatusFinalized`. -/
def splitStatusFinalized : String := "finalized"

/-- `domain.Split` from the split-entity source (aggregate root).
`time.Time` fields are embedded as `Int`. -/
structure Split where
  id : String
  clientID : String
  status : String
  documents : List Document
  unassignedPages : List Page
  createdAt : Int
  updatedAt : Int
  finalizedAt : Option Int
deriving DecidableEq, Repr

namespace Split

/-- `Split.Valid`: ID and client ID non-empty, every document valid
(wrapping the first failure as `fmt.Errorf("invalid document in split %v: %w", ...)`). -/
def valid (s : Split) : Option GoErr :=
  if s.id = "" then some (newValidationError "split ID is required" none)
  else if s.clientID = "" then some (newValidationError "client ID is required" none)
  else s.documents.findSome? fun d =>
    (d.valid).map fun e => GoErr.wrapf ("invalid document in split " ++ s.id) e

/-- `Split.Finalize`. -/
def finalize (s : Split) (finalizedAt : Int) : Except GoErr Split :=
  if s.status = splitStatusFinalized then
    .error (newConflictError "split already finalized" none)
  else if 0 < s.unassignedPages.length then
    .error (newValidationError "cannot finalize split with unassigned pages" none)
  else match s.valid with
    | some e => .error (newValidationError "invalid split" (some e))
    | none => .ok { s with status := splitStatusFinalized, finalizedAt := some finalizedAt }

/-- `Split.AddDocument`. -/
def addDocument (s : Split) (d : Document) : Except GoErr Split :=
  if s.status = splitStatusFinalized then
    .error (newConflictError "cannot add document to finalized split" none)
  else match d.valid with
    | some e => .error (newValidationError "invalid document" (some e))
    | none =>
      if s.documents.any (fun ex => ex.id = d.id) then
        .error (newConflictError "document with ID already exists" none)
      else if d.pages.any Page.isAssigned then
        .error (newConflictError "cannot add document with already assigned pages" none)
      else .ok { s with documents := s.documents ++ [d] }

end Split

/-- The document loop of `Split.RemoveDocument`: acts on the first
document whose ID matches, removing all of its pages (via
`Document.RemovePages` on the full ID list) and dropping it from the
list; `NotFound` when the loop finds no match.  The Go `errors.As`
check passes any error that wraps a `DomainError` through unchanged. -/
def removeDocLoop (docID : String) : List Document → Except GoErr (List Document × List Page)
  | [] => .error (newNotFoundError "document not found in split" none)
  | d :: rest =>
    if d.id = docID then
      let r := d.removePages (d.pages.map Page.id)
      match r.2 with
      | .error e =>
        if e.firstDomainKind.isSome then .error e
        else .error (newValidationError "failed to remove pages from document" (some e))
      | .ok removed => .ok (rest, removed)
    else
      match removeDocLoop docID rest with
      | .error e => .error e
      | .ok (rest1, removed) => .ok (d :: rest1, removed)

/-- `Split.RemoveDocument`. -/
def Split.removeDocument (s : Split) (docID : String) : Except GoErr Split :=
  if s.status = splitStatusFinalized then
    .error (newConflictError "cannot remove document from finalized split" none)
  else match removeDocLoop docID s.documents with
    | .error e => .error e
    | .ok (docs, removed) =>
      .ok { s with documents := docs, unassignedPages := s.unassignedPages ++ removed }

/-- Index of the last element satisfying `p`, mirroring the Go lookup
loops in `Split.MovePages` (no `break`, so the last match wins). -/
def lastIdx? (p : α → Bool) : List α → Option Nat
  | [] => none
  | a :: t =>
    match lastIdx? p t with
    | some m => some (m + 1)
    | none => if p a then some 0 else none

/-- `Split.MovePages`.  The pair carries the resulting aggregate state
together with the returned error, mirroring in-place mutation through
the `*Document` pointers into `s.Documents`. -/
def Split.movePages (s : Split) (fromDocID toDocID : String) (pageIDs : List String) :
    Split × Option GoErr :=
  if s.status = splitStatusFinalized then
    (s, some (newConflictError "cannot move pages in finalized split" none))
  else
    match lastIdx? (fun d => d.id = fromDocID) s.documents with
    | none => (s, some (newNotFoundError "source document not found" none))
    | some i =>
      match lastIdx? (fun d => d.id = toDocID) s.documents with
      | none => (s, some (newNotFoundError "target document not found" none))
      | some j =>
        let toDoc := s.documents.getD j default
        if pageIDs.any (fun pid => toDoc.pages.any (fun p => p.id = pid)) then
          (s, some (newValidationError
            "cannot move pages that are already assigned to target document" none))
        else
          let fromDoc := s.documents.getD i default
          let rr := fromDoc.removePages pageIDs
          match rr.2 with
          | .error e =>
            (s, some (newValidationError "failed to remove pages from source document" (some e)))
          | .ok removed =>
            let s1 := { s with documents := s.documents.set i rr.1 }
            let toDoc1 := s1.documents.getD j default
            let ar := toDoc1.addPages removed
            let s2 := { s1 with documents := s1.documents.set j ar.1 }
            match ar.2 with
            | some e => (s2, some (newValidationError "failed to add pages to target document" (some e)))
            | none => (s2, none)

/-- Index of the first element satisfying `p`, mirroring Go loops that
return on the first match. -/
def firstIdx? (p : α → Bool) : List α → Option Nat
  | [] => none
  | a :: t => if p a then some 0 else (firstIdx? p t).map (· + 1)

/-- `Split.UpdateDocumentMetadata`: note that both failure paths return
plain `fmt.Errorf` errors (no `DomainError` kind), unlike the other
mutation methods. -/
def Split.updateDocumentMetadata (s : Split) (docID : String) (m : DocumentMetadata) :
    Split × Option GoErr :=
  if s.status = splitStatusFinalized then
    (s, some (.plain ("cannot update document in finalized split " ++ s.id)))
  else
    match firstIdx? (fun d => d.id = docID) s.documents with
    | some i =>
      ({ s with documents := s.documents.set i ((s.documents.getD i default).updateMetadata m) },
       none)
    | none => (s, some (.plain ("document " ++ docID ++ " not found in split " ++ s.id)))

/-- The per-document payload of the JSON accepted by `domain.NewSplit`. -/
structure NewDocumentData where
  id : String
  classification : String
  filename : String
  name : String
  shortDescription : String
  pageURLs : List String
deriving DecidableEq, Repr

/-- The JSON payload accepted by `domain.NewSplit`, after decoding. -/
structure NewSplitData where
  id : String
  clientID : String
  status : String
  documents : List NewDocumentData
deriving DecidableEq, Repr

/-- Decimal value of a digit run (how `Sscanf` reads a `%d` match). -/
def digitsToNat (cs : List Char) : Nat :=
  cs.foldl (fun acc c => acc * 10 + (c.toNat - 48)) 0

/-- `fmt.Sscanf(url, "page_%d.png", &pageNumber)` as used by
`domain.NewPage`: the URL must start with `page_`, followed by at least
one digit, followed by `.png` (extra trailing input is accepted by
`Sscanf`).  Signed page numbers never occur in this code base, so only
unsigned digit runs are modelled.  The function works on the character
list of the URL. -/
def parsePageURL (url : String) : Option Int :=
  let cs := url.data
  if cs.take 5 = ['p', 'a', 'g', 'e', '_'] then
    let rest := cs.drop 5
    let digits := rest.takeWhile Char.isDigit
    let tail := rest.drop digits.length
    if digits ≠ [] ∧ tail.take 4 = ['.', 'p', 'n', 'g'] then
      some (Int.ofNat (digitsToNat digits))
    else none
  else none

/-- The validation step of `domain.NewPage`. -/
def newPageCheck (p : Page) : Except GoErr Page :=
  match p.valid with
  | some e => .error (.wrapf "invalid page" e)
  | none => .ok p

/-- `domain.NewPage`; `genID` stands for the `uuid.New().String()`
value this call draws. -/
def newPage (splitID url : String) (genID : String) : Except GoErr Page :=
  match parsePageURL url with
  | none => .error (.plain "invalid page URL format")
  | some n =>
    newPageCheck { id := genID, splitID := splitID, documentID := none,
                   pageNumber := n, url := url }

/-- The page-construction loop of `domain.NewSplit`; `genID k` is the
`k`-th UUID generated, and the running counter threads through. -/
def newPagesFromURLs (splitID : String) (genID : Nat → String) :
    List String → Nat → Except GoErr (List Page × Nat)
  | [], k => .ok ([], k)
  | url :: rest, k =>
    match newPage splitID url (genID k) with
    | .error e => .error (.wrapf ("failed to create page from URL " ++ url) e)
    | .ok p =>
      match newPagesFromURLs splitID genID rest (k + 1) with
      | .error e => .error e
      | .ok (ps, k2) => .ok (p :: ps, k2)

/-- The document-construction loop of `domain.NewSplit`. -/
def newSplitDocs (splitID : String) (genID : Nat → String) :
    List NewDocumentData → Nat → Except GoErr (List Document × Nat)
  | [], k => .ok ([], k)
  | dd :: rest, k =>
    match newPagesFromURLs splitID genID dd.pageURLs k with
    | .error e => .error e
    | .ok (ps, k1) =>
      match newDocument dd.id splitID dd.name dd.classification dd.filename
          dd.shortDescription ps with
      | .error e => .error (.wrapf "failed to create document" e)
      | .ok doc =>
        match newSplitDocs splitID genID rest k1 with
        | .error e => .error e
        | .ok (docs, k2) => .ok (doc :: docs, k2)

/-- The validation step of `domain.NewSplit`. -/
def newSplitCheck (s : Split) : Except GoErr Split :=
  match s.valid with
  | some e => .error (.wrapf "invalid split" e)
  | none => .ok s

/-- `domain.NewSplit` after JSON decoding: `genID` supplies the UUIDs
drawn by `NewPage` in order, `now` stands for `time.Now()`. -/
def newSplit (data : NewSplitData) (genID : Nat → String) (now : Int) : Except GoErr Split :=
  match newSplitDocs data.id genID data.documents 0 with
  | .error e => .error e
  | .ok (docs, _) =>
    newSplitCheck { id := data.id, clientID := data.clientID, status := data.status,
                    documents := docs, unassignedPages := [], createdAt := now,
                    updatedAt := now, finalizedAt := none }

/-- All page IDs of a document, in page-list order. -/
def Document.pageIDs (d : Document) : List String := d.pages.map Page.id

/-- Every place a page ID can occur in a Split: each document's page
list followed by the unassigned pool. -/
def Split.pageIDLocations (s : Split) : List String :=
  (s.documents.map Document.pageIDs).flatten ++ s.unassignedPages.map Page.id

/-- The single-ownership invariant: each page ID occurs in at most one
place (in fact at most once) across all documents and the pool. -/
def Split.singleOwnership (s : Split) : Prop := s.pageIDLocations.Nodup

instance (s : Split) : Decidable s.singleOwnership :=
  inferInstanceAs (Decidable (List.Nodup _))

/-- One mutation operation on a Split (the five methods of the
aggregate's public mutation API). -/
inductive SplitOp where
  | addDocument (d : Document)
  | removeDocument (docID : String)
  | movePages (fromDocID toDocID : String) (pageIDs : List String)
  | updateDocumentMetadata (docID : String) (m : DocumentMetadata)
  | finalize (t : Int)
deriving Repr

/-- The aggregate state after invoking one mutation method: Go mutates
the receiver only on the paths modelled with an updated state; on every
error path of the `Except`-returning methods the receiver is unchanged. -/
def Split.applyOp (s : Split) : SplitOp → Split
  | .addDocument d => ((s.addDocument d).toOption).getD s
  | .removeDocument docID => ((s.removeDocument docID).toOption).getD s
  | .movePages fromDocID toDocID pageIDs => (s.movePages fromDocID toDocID pageIDs).1
  | .updateDocumentMetadata docID m => (s.updateDocumentMetadata docID m).1
  | .finalize t => ((s.finalize t).toOption).getD s

/-- The aggregate state after a sequence of mutation operations. -/
def Split.applyOps (s : Split) (ops : List SplitOp) : Split :=
  ops.foldl Split.applyOp s

/-! ## Concrete fixtures used by witnesses and counterexamples -/

/-- Page `x`: `page_1.png`, parsed page number 1. -/
def pageX : Page := { id := "x", splitID := "s1", documentID := none, pageNumber := 1, url := "page_1.png" }

/-- Page `y`: `page_01.png`, also parsed to page number 1 by `Sscanf`. -/
def pageY : Page := { id := "y", splitID := "s1", documentID := none, pageNumber := 1, url := "page_01.png" }

/-- Page `z`: `page_5.png`. -/
def pageZ : Page := { id := "z", splitID := "s1", documentID := none, pageNumber := 5, url := "page_5.png" }

/-- Document `A` holding `pageX` and `pageY` (two pages with equal page
number 1 but different URLs), built by the constructor. -/
def docA : Document :=
  ((newDocument "A" "s1" "DocA" "W-2" "a.pdf" "descA" [pageX, pageY]).toOption).getD default

/-- Document `B` holding `pageZ`. -/
def docB : Document :=
  ((newDocument "B" "s1" "DocB" "Invoice" "b.pdf" "descB" [pageZ]).toOption).getD default

/-- A draft split holding documents `A` and `B` and no unassigned pages. -/
def splitAB : Split :=
  { id := "s1", clientID := "c1", status := splitStatusDraft,
    documents := [docA, docB], unassignedPages := [],
    createdAt := 0, updatedAt := 0, finalizedAt := none }

/-- A second document reusing `pageX`, which already sits in `docA`. -/
def dupDoc : Document :=
  ((newDocument "D2" "s1" "Dup" "W-2" "d.pdf" "dup" [pageX]).toOption).getD default

/-- A split with one unassigned page, used in the finalize witness. -/
def splitWithPool : Split := { splitAB with unassignedPages := [pageZ] }

/-- The finalized state `finalize_gate` yields for `splitAB` at time 5. -/
def splitABFinal : Split := { splitAB with status := splitStatusFinalized, finalizedAt := some 5 }

/-- A page already assigned to some other document. -/
def pageW : Page := { id := "w", splitID := "s1", documentID := some "other", pageNumber := 7, url := "page_7.png" }

/-! ## C1 counterexample: a page can come to exist in two places -/

/-- The JSON payload that produces `splitAB` via `NewSplit`. -/
def splitABData : NewSplitData :=
  { id := "s1", clientID := "c1", status := "draft",
    documents :=
      [ { id := "A", classification := "W-2", filename := "a.pdf", name := "DocA",
          shortDescription := "descA", pageURLs := ["page_1.png", "page_01.png"] },
        { id := "B", classification := "Invoice", filename := "b.pdf", name := "DocB",
          shortDescription := "descB", pageURLs := ["page_5.png"] } ] }

/-- The UUID supply that produces the IDs `x`, `y`, `z`. -/
def splitABGen : Nat → String := fun k => if k = 0 then "x" else if k = 1 then "y" else "z"

/-- Decidable equality on `Except` results, for evaluating constructor
outcomes inside closed witness statements. -/
instance [DecidableEq ε] [DecidableEq α] : DecidableEq (Except ε α) := fun x y =>
  match x, y with
  | .ok a, .ok b =>
    if h : a = b then isTrue (by rw [h]) else isFalse (fun he => by cases he; exact h rfl)
  | .error a, .error b =>
    if h : a = b then isTrue (by rw [h]) else isFalse (fun he => by cases he; exact h rfl)
  | .ok _, .error _ => isFalse (fun he => by cases he)
  | .error _, .ok _ => isFalse (fun he => by cases he)

/-- The extra premise `addDocOK` on `AddDocument` steps: the new
document's page IDs are duplicate-free and fresh for the split. -/
def addDocOK (s : Split) : SplitOp → Prop
  | .addDocument d => d.pageIDs.Nodup ∧ ∀ pid ∈ d.pageIDs, pid ∉ s.pageIDLocations
  | _ => True

/-- A mutation sequence is admissible when every `AddDocument` step adds
fresh, duplicate-free page IDs (checked against the state it runs in). -/
def okSeq : Split → List SplitOp → Prop
  | _, [] => True
  | s, op :: rest => addDocOK s op ∧ okSeq (s.applyOp op) rest

/-- Total number of pages described by a `NewSplit` payload. -/
def totalPageCount (data : NewSplitData) : Nat :=
  (data.documents.map (fun d => d.pageURLs.length)).sum

/-- A fresh page for the witness document. -/
def pageN : Page := { id := "n1", splitID := "s1", documentID := none, pageNumber := 3, url := "page_3.png" }

/-- A document with fresh page IDs, admissible to add after removing `A`. -/
def freshDoc : Document :=
  ((newDocument "D3" "s1" "DocN" "W-2" "n.pdf" "descN" [pageN]).toOption).getD default

instance (s : Split) (op : SplitOp) : Decidable (addDocOK s op) :=
  match op with
  | .addDocument d => inferInstanceAs (Decidable (_ ∧ _))
  | .removeDocument _ => inferInstanceAs (Decidable True)
  | .movePages _ _ _ => inferInstanceAs (Decidable True)
  | .updateDocumentMetadata _ _ => inferInstanceAs (Decidable True)
  | .finalize _ => inferInstanceAs (Decidable True)

/-- The target document after a successful `MovePages`: the moved pages
are assigned to it and appended, then order and bounds recomputed
(derived normal form of the success path, used to state results). -/
def moveResultDoc (D : List Document) (j : Nat) (removed : List Page) : Document :=
  Document.updatePageNumbers
    { D.getD j default with pages := (D.getD j default).pages ++ removed.map (fun p => { p with documentID := some (D.getD j default).id }) }

/-- The split state after a successful `MovePages` in terms of the
source-document result `A1` and the removed pages. -/
def moveResult (s : Split) (i j : Nat) (A1 : Document) (removed : List Page) : Split :=
  { s with documents := (s.documents.set i A1).set j (moveResultDoc (s.documents.set i A1) j removed) }

/-- Page `v`: `page_2.png`. -/
def pageV : Page := { id := "v", splitID := "s1", documentID := none, pageNumber := 2, url := "page_2.png" }

/-- Document `A` with two distinct page numbers, for the round-trip witness. -/
def docA2 : Document :=
  ((newDocument "A" "s1" "DocA" "W-2" "a.pdf" "descA" [pageX, pageV]).toOption).getD default

/-- A draft split with distinct page numbers in every document. -/
def splitAB2 : Split :=
  { id := "s1", clientID := "c1", status := splitStatusDraft,
    documents := [docA2, docB], unassignedPages := [],
    createdAt := 0, updatedAt := 0, finalizedAt := none }

/-! ## The SQLite repository (`SplitRepositorySQL` in
`internal/infrastructure/db/repositories/splits/sqlite_uow.go`)

The three tables of the schema (`part_008`) are embedded as lists of
row records; a table's `PRIMARY KEY` is reflected by the `Nodup`
hypotheses of the theorems, never assumed by the definitions.  The
`pages.page_number` and `documents.start_page` columns are declared
`TEXT`, so SQLite stores the integer page number as its decimal string
and `ORDER BY` compares that text with `memcmp` (codepoint-lexicographic
order, which on the `List Char` embedding of UTF-8 strings is exactly
`≤` on `List Char`); scanning a `page_number` back into the Go `int`
field re-parses the stored decimal text. -/

/-- A row of the `splits` table.  There is no `finalized_at` column. -/
structure SplitRow where
  id : String
  clientID : String
  status : String
  createdAt : Int
  updatedAt : Int
deriving DecidableEq, Repr

/-- A row of the `documents` table (no page data lives here). -/
structure DocumentRow where
  id : String
  splitID : String
  name : String
  classification : String
  filename : String
  shortDescription : String
  startPage : String
  endPage : String
deriving DecidableEq, Repr

/-- A row of the `pages` table; `documentID = none` is an SQL `NULL`. -/
structure PageRow where
  id : String
  splitID : String
  documentID : Option String
  pageNumber : Int
  url : String
deriving DecidableEq, Repr

/-- The database state seen by one transaction. -/
structure DB where
  splits : List SplitRow
  documents : List DocumentRow
  pages : List PageRow
deriving DecidableEq, Repr

/-- The decimal text SQLite stores for an integer arriving in a `TEXT`
column (TEXT affinity converts the integer to its decimal string). -/
def sqliteIntText (i : Int) : List Char := (Int.repr i).data

/-- `ORDER BY page_number` on the TEXT column: lexicographic comparison
of the stored decimal strings. -/
def pageRowLE (a b : PageRow) : Prop :=
  sqliteIntText a.pageNumber ≤ sqliteIntText b.pageNumber

instance : DecidableRel pageRowLE :=
  fun a b => inferInstanceAs (Decidable (_ ≤ _))

instance : IsTotal PageRow pageRowLE := ⟨fun a b => le_total _ _⟩

instance : IsTrans PageRow pageRowLE := ⟨fun _ _ _ h h2 => le_trans h h2⟩

/-- `ORDER BY start_page` on the TEXT column (the stored value is the
first page's URL string). -/
def docRowLE (a b : DocumentRow) : Prop := a.startPage.data ≤ b.startPage.data

instance : DecidableRel docRowLE :=
  fun a b => inferInstanceAs (Decidable (_ ≤ _))

instance : IsTotal DocumentRow docRowLE := ⟨fun a b => le_total _ _⟩

instance : IsTrans DocumentRow docRowLE := ⟨fun _ _ _ h h2 => le_trans h h2⟩

/-- `INSERT ... ON CONFLICT(key) DO UPDATE SET <all non-key columns> =
excluded...`: with every non-key column updated from the excluded row,
the conflicting row becomes `x` itself; without a conflict `x` is
appended.  (The key is unique in SQLite; the `map` form is what the
statement does on each row holding the key.) -/
def upsertBy {α : Type} (key : α → String) (t : List α) (x : α) : List α :=
  if t.any (fun r => key r = key x) then t.map (fun r => if key r = key x then x else r)
  else t ++ [x]

namespace SplitRepositorySQL

/-- The `splits` upsert of `Save`: `ON CONFLICT(id)` updates
`client_id`, `status` and `updated_at` but keeps `created_at`. -/
def saveSplitRow (t : List SplitRow) (s : Split) : List SplitRow :=
  if t.any (fun r => r.id = s.id) then
    t.map fun r =>
      if r.id = s.id then
        { r with clientID := s.clientID, status := s.status, updatedAt := s.updatedAt }
      else r
  else
    t ++ [{ id := s.id, clientID := s.clientID, status := s.status,
            createdAt := s.createdAt, updatedAt := s.updatedAt }]

/-- The `documents` row written by `Save` for document `doc`. -/
def docRowOf (d : Document) : DocumentRow :=
  { id := d.id, splitID := d.splitID, name := d.name,
    classification := d.classification, filename := d.filename,
    shortDescription := d.shortDescription, startPage := d.startPage,
    endPage := d.endPage }

/-- The `pages` row written by `Save` for page `p` with the given
`document_id` value — `doc.ID` for a document-owned page and `NULL` for
an unassigned one, never the in-memory `page.DocumentID`. -/
def pageRowOf (docID : Option String) (p : Page) : PageRow :=
  { id := p.id, splitID := p.splitID, documentID := docID,
    pageNumber := p.pageNumber, url := p.url }

/-- `Save`, step 2: the ids collected by `SELECT id FROM documents WHERE
split_id = ?` that are not among `split.Documents`' ids. -/
def staleDocIDs (rows : List DocumentRow) (s : Split) : List String :=
  ((rows.filter (fun r => r.splitID = s.id)).map DocumentRow.id).filter
    (fun i => !(s.documents.map Document.id).contains i)

/-- `Save`, step 2: for each stale id, `DELETE FROM documents WHERE id =
?` and `DELETE FROM pages WHERE document_id = ?` (a `NULL` `document_id`
matches no id). -/
def deleteStaleDocs (db : DB) (s : Split) : DB :=
  { db with
    documents := db.documents.filter (fun r => !(staleDocIDs db.documents s).contains r.id),
    pages := db.pages.filter (fun r =>
      match r.documentID with
      | some d => !(staleDocIDs db.documents s).contains d
      | none => true) }

/-- `Save`, step 3: the ids from `SELECT id FROM pages WHERE split_id =
?` (after step 2 ran) that occur nowhere in the aggregate — the Go code
collects the kept ids from every document's pages and the unassigned
pool, which is exactly `Split.pageIDLocations`. -/
def stalePageIDs (rows : List PageRow) (s : Split) : List String :=
  ((rows.filter (fun r => r.splitID = s.id)).map PageRow.id).filter
    (fun i => !s.pageIDLocations.contains i)

/-- `Save`, step 3: `DELETE FROM pages WHERE id = ?` for each stale id. -/
def deleteStalePages (db1 : DB) (s : Split) : DB :=
  { db1 with pages := db1.pages.filter (fun r => !(stalePageIDs db1.pages s).contains r.id) }

/-- `Save`, step 4 loop body: upsert the document row, then upsert each
of its pages with `document_id = doc.ID`. -/
def saveDocument (db : DB) (d : Document) : DB :=
  { db with
    documents := upsertBy DocumentRow.id db.documents (docRowOf d),
    pages := d.pages.foldl (fun t p => upsertBy PageRow.id t (pageRowOf (some d.id) p)) db.pages }

/-- `Save`, step 5: upsert every unassigned page with a `NULL`
`document_id` (`VALUES (?, ?, NULL, ?, ?)`). -/
def saveUnassignedPages (db : DB) (s : Split) : DB :=
  { db with
    pages := s.unassignedPages.foldl (fun t p => upsertBy PageRow.id t (pageRowOf none p)) db.pages }

/-- `SplitRepositorySQL.Save`: upsert the split row, delete stale
documents (with their pages), delete stale pages, then upsert every
document with its pages and every unassigned page.  The SQL statements
cannot fail in the model, so `Save` always reaches the final
`return nil`. -/
def save (db : DB) (s : Split) : DB :=
  saveUnassignedPages
    (s.documents.foldl saveDocument
      (deleteStalePages (deleteStaleDocs { db with splits := saveSplitRow db.splits s } s) s)) s

/-- All `pages` rows `Save` writes, in write order: each document's
pages with `document_id = doc.ID`, then the unassigned pool with
`NULL`. -/
def pageRowsOf (s : Split) : List PageRow :=
  s.documents.flatMap (fun d => d.pages.map (pageRowOf (some d.id))) ++
    s.unassignedPages.map (pageRowOf none)

/-- The `domain.Page` built by the row scans of `getPages` and
`getUnassignedPages`: `document_id` is never selected, so the Go zero
value leaves `Page.DocumentID = nil`. -/
def rowToPage (r : PageRow) : Page :=
  { id := r.id, splitID := r.splitID, documentID := none,
    pageNumber := r.pageNumber, url := r.url }

/-- `getPages`: pages of one document, `ORDER BY page_number` (TEXT). -/
def getPages (db : DB) (documentID : String) : List Page :=
  (List.insertionSort pageRowLE
    (db.pages.filter (fun r => r.documentID = some documentID))).map rowToPage

/-- `getUnassignedPages`: `WHERE split_id = ? AND document_id IS NULL
ORDER BY page_number`. -/
def getUnassignedPages (db : DB) (splitID : String) : List Page :=
  (List.insertionSort pageRowLE
    (db.pages.filter (fun r => r.splitID = splitID ∧ r.documentID = none))).map rowToPage

/-- The `domain.Document` built by one `getDocuments` row scan plus its
`getPages` call. -/
def rowToDocument (db : DB) (r : DocumentRow) : Document :=
  { id := r.id, splitID := r.splitID, name := r.name,
    classification := r.classification, filename := r.filename,
    shortDescription := r.shortDescription, pages := getPages db r.id,
    startPage := r.startPage, endPage := r.endPage }

/-- `getDocuments`: `WHERE split_id = ? ORDER BY start_page` (TEXT). -/
def getDocuments (db : DB) (splitID : String) : List Document :=
  (List.insertionSort docRowLE
    (db.documents.filter (fun r => r.splitID = splitID))).map (rowToDocument db)

/-- `SplitRepositorySQL.Get`: `nil, nil` on `sql.ErrNoRows`, otherwise
the split row's scanned columns plus the loaded documents and
unassigned pages.  No `finalized_at` column exists, so `FinalizedAt`
keeps its zero value `nil` on every loaded split. -/
def get (db : DB) (id : String) : Option Split :=
  match db.splits.find? (fun r => r.id = id) with
  | none => none
  | some row =>
    some { id := row.id, clientID := row.clientID, status := row.status,
           documents := getDocuments db id,
           unassignedPages := getUnassignedPages db id,
           createdAt := row.createdAt, updatedAt := row.updatedAt,
           finalizedAt := none }

end SplitRepositorySQL

/-! ## C3 counterexample: TEXT page numbers break within-document order -/

/-- An empty transaction state. -/
def dbEmpty : DB := { splits := [], documents := [], pages := [] }

/-- Page number 2 of the round-trip counterexample. -/
def pageP2 : Page :=
  { id := "p2", splitID := "s9", documentID := none, pageNumber := 2, url := "page_2.png" }

/-- Page number 10 of the round-trip counterexample. -/
def pageP10 : Page :=
  { id := "p10", splitID := "s9", documentID := none, pageNumber := 10, url := "page_10.png" }

/-- A normalized document holding pages 2 and 10 in ascending numeric
order (exactly the state `updatePageNumbers` maintains). -/
def docC : Document :=
  { id := "dc", splitID := "s9", name := "contract", classification := "contract",
    filename := "c.pdf", shortDescription := "", pages := [pageP2, pageP10],
    startPage := "page_2.png", endPage := "page_10.png" }

/-- The aggregate whose round trip loses the page order. -/
def splitC : Split :=
  { id := "s9", clientID := "c1", status := splitStatusDraft, documents := [docC],
    unassignedPages := [], createdAt := 3, updatedAt := 4, finalizedAt := none }

/-! ## Reload normal forms (what a round trip is expected to return,
written from the spec side of the refinement) -/

/-- The `ORDER BY page_number` comparator lifted to domain pages: the
TEXT column compares the decimal strings of the page numbers. -/
def pageTextLE (a b : Page) : Prop :=
  sqliteIntText a.pageNumber ≤ sqliteIntText b.pageNumber

instance : DecidableRel pageTextLE :=
  fun a b => inferInstanceAs (Decidable (_ ≤ _))

instance : IsTotal Page pageTextLE := ⟨fun a b => le_total _ _⟩

instance : IsTrans Page pageTextLE := ⟨fun _ _ _ h h2 => le_trans h h2⟩

/-- How a page list comes back from the repository: sorted by the TEXT
rendering of the page numbers, with `DocumentID` cleared. -/
def reloadedPages (ps : List Page) : List Page :=
  (List.insertionSort pageTextLE ps).map Page.unassign

/-- How a document comes back from the repository: every scalar column
intact, its page list in reloaded form. -/
def reloadedDocument (d : Document) : Document := { d with pages := reloadedPages d.pages }

/-- The aggregate with every page's in-memory `DocumentID` mark erased
(the repository never reads that field). -/
def Split.clearPageMarks (s : Split) : Split :=
  { s with
    documents := s.documents.map (fun d => { d with pages := d.pages.map Page.unassign }),
    unassignedPages := s.unassignedPages.map Page.unassign }

/-- The TEXT sort keys of every page in the aggregate, documents first. -/
def Split.pageNumberTexts (s : Split) : List (List Char) :=
  (s.documents.flatMap Document.pages ++ s.unassignedPages).map
    (fun p => sqliteIntText p.pageNumber)

/-- The base `pages` table `Save`'s upserts start from: the rows that
survive both delete passes. -/
def basePages (db : DB) (s : Split) : List PageRow :=
  (db.pages.filter (fun r =>
      match r.documentID with
      | some d => !(SplitRepositorySQL.staleDocIDs db.documents s).contains d
      | none => true)).filter
    (fun r =>
      !(SplitRepositorySQL.stalePageIDs
          (db.pages.filter (fun r2 =>
            match r2.documentID with
            | some d => !(SplitRepositorySQL.staleDocIDs db.documents s).contains d
            | none => true)) s).contains r.id)

/-- The base `documents` table (after the stale-document delete pass). -/
def baseDocs (db : DB) (s : Split) : List DocumentRow :=
  db.documents.filter (fun r => !(SplitRepositorySQL.staleDocIDs db.documents s).contains r.id)

/-- A document holding `pageW`, whose in-memory `DocumentID` mark is the
stale value `some "other"` (the repository must ignore it). -/
def docW : Document :=
  { id := "W", splitID := "s1", name := "w", classification := "w", filename := "w.pdf",
    shortDescription := "", pages := [pageW], startPage := "page_7.png", endPage := "page_7.png" }

/-- A split whose document-owned page carries a stale in-memory mark. -/
def splitW : Split :=
  { id := "s1", clientID := "c1", status := splitStatusDraft, documents := [docW],
    unassignedPages := [], createdAt := 0, updatedAt := 0, finalizedAt := none }

/-! ## Theorems -/

/-! ## C2: the finalize gate -/

/-- C2: `Finalize` fails whenever `UnassignedPages` is non-empty; it
succeeds whenever the pool is empty, the split is not yet finalized and
the aggregate is valid, setting status to `finalized` and a non-nil
finalize timestamp; and a second `Finalize` after a successful one
fails with a Conflict-kind error. -/
theorem finalize_gate (s s1 : Split) (t t2 : Int) :
    (s.unassignedPages ≠ [] → ∃ e, s.finalize t = .error e) ∧
    (s.status ≠ splitStatusFinalized → s.unassignedPages = [] → s.valid = none →
      s.finalize t = .ok { s with status := splitStatusFinalized, finalizedAt := some t }) ∧
    (s.finalize t = .ok s1 →
      ∃ e, s1.finalize t2 = .error e ∧ e.firstDomainKind = some .conflict) := by
  refine ⟨?_, ?_, ?_⟩
  · intro hne
    unfold Split.finalize
    split_ifs with h1 h2
    · exact ⟨_, rfl⟩
    · exact ⟨_, rfl⟩
    · simp at h2
      exact absurd h2 hne
  · intro hst hemp hval
    unfold Split.finalize
    rw [if_neg hst, hemp, hval]
    simp
  · intro hok
    unfold Split.finalize at hok
    by_cases h1 : s.status = splitStatusFinalized
    · rw [if_pos h1] at hok; cases hok
    · rw [if_neg h1] at hok
      by_cases h2 : 0 < s.unassignedPages.length
      · rw [if_pos h2] at hok; cases hok
      · rw [if_neg h2] at hok
        cases hv : s.valid with
        | some e => rw [hv] at hok; cases hok
        | none =>
          rw [hv] at hok
          simp only [Except.ok.injEq] at hok
          have hst : s1.status = splitStatusFinalized := by rw [← hok]
          refine ⟨newConflictError "split already finalized" none, ?_, rfl⟩
          unfold Split.finalize
          rw [if_pos hst]

/-- Witness for C2 at concrete inputs: success on `splitAB`, failure on
a split with a pooled page, and Conflict on the second call. -/
theorem finalize_gate_witness :
    (splitAB.finalize 5 = .ok splitABFinal) ∧
    (∃ e, splitWithPool.finalize 5 = .error e) ∧
    (∃ e, splitABFinal.finalize 7 = .error e ∧ e.firstDomainKind = some .conflict) := by
  refine ⟨?_, ?_, ?_⟩
  · exact (finalize_gate splitAB splitAB 5 5).2.1 (by decide) (by decide) (by decide)
  · exact (finalize_gate splitWithPool splitWithPool 5 5).1 (by decide)
  · exact (finalize_gate splitAB splitABFinal 5 7).2.2
      ((finalize_gate splitAB splitABFinal 5 5).2.1 (by decide) (by decide) (by decide))

/-! ## C6: UpdateDocumentMetadata on a finalized split -/

/-- C6 (code bug): on a finalized split `UpdateDocumentMetadata` does
fail for every document ID and metadata, but with a plain formatted
error that carries no `DomainError` kind at all — in particular not the
Conflict kind the specification requires (every sibling mutation method
uses `NewConflictError` here). -/
theorem updateDocumentMetadata_finalized_plainError (s : Split) (docID : String)
    (m : DocumentMetadata) (h : s.status = splitStatusFinalized) :
    s.updateDocumentMetadata docID m =
      (s, some (.plain ("cannot update document in finalized split " ++ s.id))) ∧
    ∀ e, (s.updateDocumentMetadata docID m).2 = some e →
      e.firstDomainKind ≠ some DomainErrorKind.conflict := by
  unfold Split.updateDocumentMetadata
  rw [if_pos h]
  refine ⟨rfl, ?_⟩
  intro e he
  simp only [Option.some.injEq] at he
  subst he
  simp [GoErr.firstDomainKind]

/-- Witness for C6: the concrete finalized split rejects a metadata
update with the kindless plain error. -/
theorem updateDocumentMetadata_finalized_plainError_witness :
    splitABFinal.updateDocumentMetadata "A" ⟨some "N", none, none⟩ =
      (splitABFinal, some (.plain ("cannot update document in finalized split " ++ splitABFinal.id))) ∧
    ∀ e, (splitABFinal.updateDocumentMetadata "A" ⟨some "N", none, none⟩).2 = some e →
      e.firstDomainKind ≠ some DomainErrorKind.conflict :=
  updateDocumentMetadata_finalized_plainError splitABFinal "A" ⟨some "N", none, none⟩ (by decide)

/-! ## C8: AddPages does not roll back on failure -/

/-- The `AddPages` loop applied to a prefix of unassigned pages followed
by an already-assigned page: the prefix stays appended and assigned, and
the call returns the Validation error wrapping the Conflict. -/
theorem addPagesLoop_noRollback (d : Document) (pre : List Page) (p : Page) (rest : List Page)
    (hpre : ∀ q ∈ pre, q.isAssigned = false) (hp : p.isAssigned = true) :
    Document.addPagesLoop d (pre ++ p :: rest) =
      ({ d with pages := d.pages ++ pre.map (fun q => { q with documentID := some d.id }) },
       some (newValidationError "failed to assign page to document"
         (some (newConflictError "page is already assigned to a document" none)))) := by
  induction pre generalizing d with
  | nil =>
    simp only [List.nil_append, Document.addPagesLoop, Page.assignToDocument, hp]
    simp
  | cons q pre ih =>
    have hq : q.isAssigned = false := hpre q (by simp)
    simp only [List.cons_append, Document.addPagesLoop, Page.assignToDocument, hq]
    simp only [Bool.false_eq_true, if_false, List.append_eq]
    rw [ih _ (fun r hr => hpre r (by simp [hr]))]
    simp [List.append_assoc]

/-- C8: when an incoming page list has its first already-assigned page
at a position `i > 0` (here: after prefix `pre ≠ []` of unassigned
pages), `AddPages` returns a Validation-kind error and the pages before
position `i` remain appended to the document and assigned to it — the
partial mutation is not rolled back, and `updatePageNumbers` is not
re-run (bounds and sort order are untouched). -/
theorem addPages_noRollback (d : Document) (pre : List Page) (p : Page) (rest : List Page)
    (hne : pre ≠ []) (hpre : ∀ q ∈ pre, q.isAssigned = false) (hp : p.isAssigned = true) :
    d.addPages (pre ++ p :: rest) =
      ({ d with pages := d.pages ++ pre.map (fun q => { q with documentID := some d.id }) },
       some (newValidationError "failed to assign page to document"
         (some (newConflictError "page is already assigned to a document" none)))) ∧
    (newValidationError "failed to assign page to document"
         (some (newConflictError "page is already assigned to a document" none))).firstDomainKind
      = some .validation := by
  refine ⟨?_, rfl⟩
  unfold Document.addPages
  rw [addPagesLoop_noRollback d pre p rest hpre hp]

/-- Witness for C8: adding `[pageZ, pageW]` to `docA` fails with the
Validation error yet leaves `pageZ` appended and assigned. -/
theorem addPages_noRollback_witness :
    docA.addPages ([pageZ] ++ pageW :: []) =
      ({ docA with pages := docA.pages ++ [pageZ].map (fun q => { q with documentID := some docA.id }) },
       some (newValidationError "failed to assign page to document"
         (some (newConflictError "page is already assigned to a document" none)))) ∧
    (newValidationError "failed to assign page to document"
         (some (newConflictError "page is already assigned to a document" none))).firstDomainKind
      = some .validation :=
  addPages_noRollback docA [pageZ] pageW [] (by decide) (by decide) (by decide)

/-! ## C9: RemoveDocument -/

/-- The removal loop of `Split.RemoveDocument` returns NotFound when no
document matches. -/
theorem removeDocLoop_notFound (docID : String) (docs : List Document)
    (h : ∀ d ∈ docs, d.id ≠ docID) :
    removeDocLoop docID docs = .error (newNotFoundError "document not found in split" none) := by
  induction docs with
  | nil => rfl
  | cons d rest ih =>
    unfold removeDocLoop
    rw [if_neg (h d (by simp))]
    rw [ih (fun x hx => h x (by simp [hx]))]

/-- Filtering a page list by membership of its own ID list keeps it. -/
theorem filter_contains_self (pages : List Page) :
    pages.filter (fun p => (pages.map Page.id).contains p.id) = pages := by
  rw [List.filter_eq_self]
  intro p hp
  simp
  exact ⟨p, hp, rfl⟩

/-- `RemovePages` applied to all of a document's own page IDs removes
and unassigns every page (the empty-page case short-circuits). -/
theorem removePages_all (doc : Document) :
    doc.removePages (doc.pages.map Page.id) =
      (if doc.pages = [] then doc
       else Document.updatePageNumbers { doc with pages := [] },
       .ok (doc.pages.map Page.unassign)) := by
  unfold Document.removePages
  by_cases hp : doc.pages = []
  · simp [hp]
  · have hne2 : doc.pages.map Page.id ≠ [] := by simp [hp]
    rw [if_neg hne2, filter_contains_self]
    have hfil2 : doc.pages.filter (fun p => !(doc.pages.map Page.id).contains p.id) = [] := by
      rw [List.filter_eq_nil_iff]
      intro p hp2
      simp
      exact ⟨p, hp2, rfl⟩
    rw [hfil2, if_neg hp, if_neg hp]

/-- The removal loop acting on the first matching document. -/
theorem removeDocLoop_found (docID : String) (pre : List Document) (doc : Document)
    (post : List Document) (hpre : ∀ d ∈ pre, d.id ≠ docID) (hdoc : doc.id = docID) :
    removeDocLoop docID (pre ++ doc :: post) = .ok (pre ++ post, doc.pages.map Page.unassign) := by
  induction pre with
  | nil =>
    simp only [List.nil_append]
    unfold removeDocLoop
    rw [if_pos hdoc, removePages_all]
  | cons d pre ih =>
    simp only [List.cons_append]
    unfold removeDocLoop
    rw [if_neg (hpre d (by simp))]
    rw [ih (fun x hx => hpre x (by simp [hx]))]

/-- C9: on a non-finalized split, `RemoveDocument` fails with a
NotFound-kind error when no document carries the requested ID; when the
(first) matching document exists it succeeds, drops the document from
the list, clears `DocumentID` on each of its pages, and appends those
pages to the unassigned pool. -/
theorem removeDocument_spec (s : Split) (docID : String)
    (hs : s.status ≠ splitStatusFinalized) :
    ((∀ d ∈ s.documents, d.id ≠ docID) →
      ∃ e, s.removeDocument docID = .error e ∧ e.firstDomainKind = some .notFound) ∧
    (∀ pre doc post, s.documents = pre ++ doc :: post →
      (∀ d ∈ pre, d.id ≠ docID) → doc.id = docID →
      s.removeDocument docID =
        .ok { s with documents := pre ++ post,
                     unassignedPages := s.unassignedPages ++ doc.pages.map Page.unassign }) := by
  constructor
  · intro h
    refine ⟨newNotFoundError "document not found in split" none, ?_, rfl⟩
    unfold Split.removeDocument
    rw [if_neg hs, removeDocLoop_notFound docID s.documents h]
  · intro pre doc post hdocs hpre hdoc
    unfold Split.removeDocument
    rw [if_neg hs, hdocs, removeDocLoop_found docID pre doc post hpre hdoc]

/-- Witness for C9: removing `A` from the concrete split moves its two
pages, unassigned, into the pool; removing a missing ID is NotFound. -/
theorem removeDocument_spec_witness :
    (splitAB.removeDocument "A" =
      .ok { splitAB with documents := [] ++ [docB],
                         unassignedPages := splitAB.unassignedPages ++ docA.pages.map Page.unassign }) ∧
    (∃ e, splitAB.removeDocument "missing" = .error e ∧ e.firstDomainKind = some .notFound) :=
  ⟨(removeDocument_spec splitAB "A" (by decide)).2 [] docA [docB] (by decide) (by decide) (by decide),
   (removeDocument_spec splitAB "missing" (by decide)).1 (by decide)⟩

/-! ## C5: MovePages when no requested page matches the source -/

/-- Specification of `lastIdx?`: a returned index is in bounds and its
element satisfies the predicate. -/
theorem lastIdx?_spec [Inhabited α] (p : α → Bool) (l : List α) (i : Nat)
    (h : lastIdx? p l = some i) : i < l.length ∧ p (l.getD i default) = true := by
  induction l generalizing i with
  | nil => cases h
  | cons a t ih =>
    unfold lastIdx? at h
    cases ht : lastIdx? p t with
    | some m =>
      rw [ht] at h
      simp only [Option.some.injEq] at h
      subst h
      obtain ⟨hlt, hp⟩ := ih m ht
      exact ⟨by simpa using Nat.succ_lt_succ hlt, by simpa using hp⟩
    | none =>
      rw [ht] at h
      by_cases hpa : p a = true
      · rw [if_pos hpa] at h
        simp only [Option.some.injEq] at h
        subst h
        exact ⟨by simp, by simpa using hpa⟩
      · rw [if_neg hpa] at h
        cases h

/-- `lastIdx?` finds an index whenever some member satisfies the
predicate. -/
theorem lastIdx?_isSome [Inhabited α] (p : α → Bool) (l : List α) (a : α)
    (ha : a ∈ l) (hp : p a = true) : ∃ i, lastIdx? p l = some i := by
  induction l with
  | nil => cases ha
  | cons b t ih =>
    unfold lastIdx?
    cases ht : lastIdx? p t with
    | some m => exact ⟨m + 1, rfl⟩
    | none =>
      rcases List.mem_cons.mp ha with h | h
      · subst h
        rw [if_pos hp]
        exact ⟨0, rfl⟩
      · obtain ⟨i, hi⟩ := ih h
        rw [ht] at hi
        cases hi

/-- `RemovePages` with a non-empty request matching none of the owned
pages returns NotFound and leaves the document unchanged. -/
theorem removePages_nomatch (d : Document) (pageIDs : List String) (hne : pageIDs ≠ [])
    (h : ∀ pid ∈ pageIDs, ∀ p ∈ d.pages, p.id ≠ pid) :
    d.removePages pageIDs =
      (d, .error (newNotFoundError "none of the specified pages found in document" none)) := by
  unfold Document.removePages
  rw [if_neg hne]
  have hfil : d.pages.filter (fun p => pageIDs.contains p.id) = [] := by
    rw [List.filter_eq_nil_iff]
    intro p hp
    intro hc
    exact h p.id (List.elem_iff.mp hc) p hp rfl
  rw [hfil]
  simp

/-- C5 (amended): on a non-finalized split where source and target
documents exist, no requested page ID is in the target, and no
requested (non-empty) page-ID set matches any source page, `MovePages`
fails — but the returned error is a Validation-kind `DomainError`
wrapping the NotFound error from `RemovePages` as its cause.
`errors.As` on the result yields kind Validation; the NotFound kind is
recoverable only through the cause chain. -/
theorem movePages_wrappedNotFound (s : Split) (fromDocID toDocID : String)
    (pageIDs : List String)
    (h1 : s.status ≠ splitStatusFinalized)
    (hfrom : ∃ d ∈ s.documents, d.id = fromDocID)
    (hto : ∃ d ∈ s.documents, d.id = toDocID)
    (htarget : ∀ d ∈ s.documents, d.id = toDocID → ∀ pid ∈ pageIDs, ∀ p ∈ d.pages, p.id ≠ pid)
    (hsrc : ∀ d ∈ s.documents, d.id = fromDocID → ∀ pid ∈ pageIDs, ∀ p ∈ d.pages, p.id ≠ pid)
    (hne : pageIDs ≠ []) :
    s.movePages fromDocID toDocID pageIDs =
      (s, some (GoErr.domainErr .validation "failed to remove pages from source document"
          (GoErr.domainErr0 .notFound "none of the specified pages found in document"))) ∧
    (GoErr.domainErr .validation "failed to remove pages from source document"
        (GoErr.domainErr0 .notFound "none of the specified pages found in document")).firstDomainKind
      = some .validation ∧
    (GoErr.domainErr0 .notFound
        "none of the specified pages found in document" : GoErr).firstDomainKind
      = some .notFound := by
  refine ⟨?_, rfl, rfl⟩
  unfold Split.movePages
  rw [if_neg h1]
  obtain ⟨df, hdf, hdfid⟩ := hfrom
  obtain ⟨dt, hdt, hdtid⟩ := hto
  obtain ⟨i, hi⟩ := lastIdx?_isSome (fun d => d.id = fromDocID) s.documents df hdf (by simp [hdfid])
  obtain ⟨j, hj⟩ := lastIdx?_isSome (fun d => d.id = toDocID) s.documents dt hdt (by simp [hdtid])
  rw [hi, hj]
  obtain ⟨hjlt, hjp⟩ := lastIdx?_spec _ _ _ hj
  obtain ⟨hilt, hip⟩ := lastIdx?_spec _ _ _ hi
  have htmem : s.documents.getD j default ∈ s.documents := by
    rw [List.getD_eq_getElem _ _ hjlt]
    exact List.getElem_mem hjlt
  have hfmem : s.documents.getD i default ∈ s.documents := by
    rw [List.getD_eq_getElem _ _ hilt]
    exact List.getElem_mem hilt
  have hcheck : (pageIDs.any (fun pid => (s.documents.getD j default).pages.any
      (fun p => p.id = pid))) = false := by
    simp only [List.any_eq_false]
    intro pid hpid hp
    obtain ⟨p, hpmem, hpe⟩ := List.any_eq_true.mp hp
    exact htarget _ htmem (by simpa using hjp) pid hpid p hpmem (by simpa using hpe)
  have hrm := removePages_nomatch (s.documents.getD i default) pageIDs hne
    (hsrc _ hfmem (by simpa using hip))
  simp only [hcheck, Bool.false_eq_true, if_false, hrm]
  rfl

/-- Witness for C5 (amended) at a concrete input: moving an unknown
page ID between the two documents of `splitAB`. -/
theorem movePages_wrappedNotFound_witness :
    splitAB.movePages "A" "B" ["nope"] =
      (splitAB, some (GoErr.domainErr .validation "failed to remove pages from source document"
          (GoErr.domainErr0 .notFound "none of the specified pages found in document"))) ∧
    (GoErr.domainErr .validation "failed to remove pages from source document"
        (GoErr.domainErr0 .notFound "none of the specified pages found in document")).firstDomainKind
      = some .validation ∧
    (GoErr.domainErr0 .notFound
        "none of the specified pages found in document" : GoErr).firstDomainKind
      = some .notFound :=
  movePages_wrappedNotFound splitAB "A" "B" ["nope"] (by decide) (by decide) (by decide)
    (by decide) (by decide) (by decide)

/-- C5 counterexample to the claim as stated: at this concrete input all
of the claim's premises hold, `MovePages` fails, but the kind `errors.As`
recovers from the returned error is Validation, not NotFound. -/
theorem movePages_notFound_kind_counterexample :
    (splitAB.status ≠ splitStatusFinalized) ∧
    (∃ d ∈ splitAB.documents, d.id = "A") ∧
    (∃ d ∈ splitAB.documents, d.id = "B") ∧
    (∀ d ∈ splitAB.documents, ∀ p ∈ d.pages, p.id ≠ "nope") ∧
    ((splitAB.movePages "A" "B" ["nope"]).2.map GoErr.firstDomainKind =
      some (some .validation)) ∧
    ((splitAB.movePages "A" "B" ["nope"]).2.map GoErr.firstDomainKind ≠
      some (some .notFound)) := by
  refine ⟨by decide, by decide, by decide, by decide, by decide, by decide⟩

/-! ## C7 counterexample: the move round trip need not restore bounds -/

/-- C7 counterexample: in `splitAB` document `A` holds two pages with
equal page number 1 (`page_1.png` and `page_01.png`).  Moving page `x`
to `B` and back succeeds both ways but leaves `A` with its
`StartPage`/`EndPage` bounds swapped relative to the initial state, so
the round trip does not restore the bounds. -/
theorem movePages_roundTrip_counterexample :
    ((splitAB.movePages "A" "B" ["x"]).2 = none) ∧
    (((splitAB.movePages "A" "B" ["x"]).1.movePages "B" "A" ["x"]).2 = none) ∧
    (splitAB.documents.map fun d => (d.id, d.startPage, d.endPage)) =
      [("A", "page_1.png", "page_01.png"), ("B", "page_5.png", "page_5.png")] ∧
    ((((splitAB.movePages "A" "B" ["x"]).1.movePages "B" "A" ["x"]).1.documents.map
        fun d => (d.id, d.startPage, d.endPage)) =
      [("A", "page_01.png", "page_1.png"), ("B", "page_5.png", "page_5.png")]) := by
  refine ⟨rfl, rfl, rfl, rfl⟩

/-- C1 counterexample: `splitAB` is constructed by `NewSplit`, satisfies
single ownership, and a single `AddDocument` of a (valid, unassigned)
document reusing page ID `x` succeeds and breaks single ownership — the
page ID `x` now appears in two documents at once. -/
theorem singleOwnership_counterexample :
    (newSplit splitABData splitABGen 0 = .ok splitAB) ∧
    splitAB.singleOwnership ∧
    (splitAB.addDocument dupDoc).isOk = true ∧
    ¬ (splitAB.applyOp (.addDocument dupDoc)).singleOwnership := by
  refine ⟨by decide, by decide, by decide, by decide⟩

/-! ## C1 (amended): single ownership under admissible sequences -/

theorem updatePageNumbers_pages (d : Document) :
    (d.updatePageNumbers).pages = sortPages d.pages := by
  unfold Document.updatePageNumbers
  cases h : sortPages d.pages <;> simp [h]

theorem updatePageNumbers_pageIDs (d : Document) :
    List.Perm (d.updatePageNumbers).pageIDs d.pageIDs := by
  unfold Document.pageIDs
  rw [updatePageNumbers_pages]
  exact (List.perm_insertionSort pageLE d.pages).map Page.id

theorem addPagesLoop_ok (d : Document) (ps : List Page) (h : ∀ p ∈ ps, p.isAssigned = false) :
    Document.addPagesLoop d ps =
      ({ d with pages := d.pages ++ ps.map (fun p => { p with documentID := some d.id }) },
       none) := by
  induction ps generalizing d with
  | nil => simp [Document.addPagesLoop]
  | cons q ps ih =>
    have hq : q.isAssigned = false := h q (by simp)
    simp only [Document.addPagesLoop, Page.assignToDocument, hq, Bool.false_eq_true, if_false]
    rw [ih _ (fun r hr => h r (by simp [hr]))]
    simp [List.append_assoc]

theorem addPages_ok (d : Document) (ps : List Page) (h : ∀ p ∈ ps, p.isAssigned = false) :
    d.addPages ps =
      (Document.updatePageNumbers
        { d with pages := d.pages ++ ps.map (fun p => { p with documentID := some d.id }) },
       none) := by
  unfold Document.addPages
  rw [addPagesLoop_ok d ps h]

theorem removePages_ok_ids (d d' : Document) (ids : List String) (removed : List Page)
    (h : d.removePages ids = (d', .ok removed)) :
    List.Perm (d'.pageIDs ++ removed.map Page.id) d.pageIDs ∧
    ∀ p ∈ removed, p.isAssigned = false := by
  unfold Document.removePages at h
  by_cases hids : ids = []
  · rw [if_pos hids] at h
    have h1 : d = d' := congrArg Prod.fst h
    have h2 : (Except.ok [] : Except GoErr (List Page)) = .ok removed := congrArg Prod.snd h
    simp only [Except.ok.injEq] at h2
    subst h1
    rw [← h2]
    simp [Document.pageIDs]
  · rw [if_neg hids] at h
    by_cases hrem : d.pages.filter (fun p => ids.contains p.id) = []
    · rw [if_pos hrem] at h
      have h2 := congrArg Prod.snd h
      simp at h2
    · rw [if_neg hrem] at h
      have h1 := congrArg Prod.fst h
      have h2 := congrArg Prod.snd h
      simp only [Except.ok.injEq] at h1 h2
      constructor
      · rw [← h1, ← h2]
        have hperm1 := updatePageNumbers_pageIDs
          { d with pages := d.pages.filter (fun p => !ids.contains p.id) }
        refine List.Perm.trans (List.Perm.append hperm1 (List.Perm.refl _)) ?_
        simp only [Document.pageIDs, List.map_map]
        have : (List.map (Page.id ∘ Page.unassign) (d.pages.filter (fun p => ids.contains p.id)))
            = List.map Page.id (d.pages.filter (fun p => ids.contains p.id)) := by
          simp [Function.comp, Page.unassign]
        rw [this, ← List.map_append]
        refine List.Perm.map Page.id ?_
        refine List.Perm.trans List.perm_append_comm ?_
        exact List.filter_append_perm _ d.pages
      · intro p hp
        rw [← h2] at hp
        obtain ⟨q, hq, hqe⟩ := List.mem_map.mp hp
        rw [← hqe]
        rfl

theorem flatten_map_set_perm {α β : Type} [Inhabited α] (f : α → List β) (l : List α) (k : Nat)
    (v : α) (hk : k < l.length) :
    List.Perm (((l.set k v).map f).flatten ++ f (l.getD k default))
              ((l.map f).flatten ++ f v) := by
  induction l generalizing k with
  | nil => cases hk
  | cons a t ih =>
    cases k with
    | zero =>
      simp only [List.set, List.map, List.flatten, List.getD, List.getElem?_cons_zero,
        Option.getD_some]
      refine List.Perm.trans List.perm_append_comm ?_
      rw [List.append_assoc]
      exact List.Perm.append_left (f a) List.perm_append_comm
    | succ k =>
      have hk2 : k < t.length := by simpa using hk
      simp only [List.set, List.map, List.flatten, List.getD_cons_succ]
      rw [List.append_assoc, List.append_assoc]
      exact List.Perm.append_left (f a) (ih k hk2)

example (l l1 l2 : List String) (h : List.Perm (l1 ++ l) (l2 ++ l)) : List.Perm l1 l2 :=
  (List.perm_append_right_iff l).mp h

theorem removeDocLoop_ok_char (docID : String) (docs docs' : List Document)
    (removed : List Page) (h : removeDocLoop docID docs = .ok (docs', removed)) :
    List.Perm ((docs'.map Document.pageIDs).flatten ++ removed.map Page.id)
              ((docs.map Document.pageIDs).flatten) := by
  induction docs generalizing docs' removed with
  | nil => cases h
  | cons d rest ih =>
    unfold removeDocLoop at h
    by_cases hid : d.id = docID
    · rw [if_pos hid, removePages_all] at h
      simp only [Except.ok.injEq, Prod.mk.injEq] at h
      obtain ⟨hd, hr⟩ := h
      subst hd
      subst hr
      simp only [List.map_cons, List.flatten_cons, List.map_map]
      have hids : List.map (Page.id ∘ Page.unassign) d.pages = List.map Page.id d.pages := by
        simp [Function.comp, Page.unassign]
      rw [hids]
      simp only [Document.pageIDs]
      exact List.perm_append_comm
    · rw [if_neg hid] at h
      cases hrec : removeDocLoop docID rest with
      | error e => rw [hrec] at h; cases h
      | ok pr =>
        rw [hrec] at h
        obtain ⟨rest', removed'⟩ := pr
        simp only [Except.ok.injEq, Prod.mk.injEq] at h
        obtain ⟨hd, hr⟩ := h
        subst hd
        subst hr
        simp only [List.map_cons, List.flatten_cons]
        rw [List.append_assoc]
        exact List.Perm.append_left _ (ih rest' removed' hrec)

theorem locations_set_set_perm (s : Split) (i j : Nat) (hilt : i < s.documents.length)
    (hjlt : j < s.documents.length) (A2 B2 : Document) (R : List String)
    (hA2 : List.Perm (A2.pageIDs ++ R) (s.documents.getD i default).pageIDs)
    (hB2 : List.Perm B2.pageIDs (((s.documents.set i A2).getD j default).pageIDs ++ R)) :
    List.Perm (Split.pageIDLocations { s with documents := (s.documents.set i A2).set j B2 })
              s.pageIDLocations := by
  have hjlt1 : j < (s.documents.set i A2).length := by simpa using hjlt
  have e1 := flatten_map_set_perm Document.pageIDs (s.documents.set i A2) j B2 hjlt1
  have e2 := flatten_map_set_perm Document.pageIDs s.documents i A2 hilt
  have step1 : List.Perm
      ((((s.documents.set i A2).set j B2).map Document.pageIDs).flatten ++
        ((s.documents.set i A2).getD j default).pageIDs)
      ((((s.documents.set i A2).map Document.pageIDs).flatten ++ R) ++
        ((s.documents.set i A2).getD j default).pageIDs) := by
    refine e1.trans ?_
    refine (List.Perm.append_left _ hB2).trans ?_
    refine (List.Perm.append_left _ List.perm_append_comm).trans ?_
    rw [← List.append_assoc]
  have hX2 : List.Perm
      ((((s.documents.set i A2).set j B2).map Document.pageIDs).flatten)
      (((s.documents.set i A2).map Document.pageIDs).flatten ++ R) :=
    (List.perm_append_right_iff _).mp step1
  have step3 : List.Perm
      ((((s.documents.set i A2).map Document.pageIDs).flatten ++ R) ++ A2.pageIDs)
      ((s.documents.map Document.pageIDs).flatten ++ A2.pageIDs) := by
    rw [List.append_assoc]
    refine (List.Perm.append_left _ List.perm_append_comm).trans ?_
    refine (List.Perm.append_left _ hA2).trans ?_
    exact e2
  have hX1R : List.Perm
      (((s.documents.set i A2).map Document.pageIDs).flatten ++ R)
      ((s.documents.map Document.pageIDs).flatten) :=
    (List.perm_append_right_iff _).mp step3
  simp only [Split.pageIDLocations]
  exact List.Perm.append_right _ (hX2.trans hX1R)

theorem assign_id_map (removed : List Page) (x : String) :
    List.map Page.id (removed.map (fun p => { p with documentID := some x })) =
      removed.map Page.id := by
  simp [List.map_map, Function.comp]

theorem movePages_locations_perm (s : Split) (fromID toID : String) (P : List String) :
    List.Perm ((s.movePages fromID toID P).1.pageIDLocations) s.pageIDLocations := by
  unfold Split.movePages
  by_cases h1 : s.status = splitStatusFinalized
  · rw [if_pos h1]
  · rw [if_neg h1]
    cases hi : lastIdx? (fun d => d.id = fromID) s.documents with
    | none => exact List.Perm.refl _
    | some i =>
      cases hj : lastIdx? (fun d => d.id = toID) s.documents with
      | none => exact List.Perm.refl _
      | some j =>
        obtain ⟨hilt, _⟩ := lastIdx?_spec _ _ _ hi
        obtain ⟨hjlt, _⟩ := lastIdx?_spec _ _ _ hj
        cases hchk : (P.any fun pid =>
            (s.documents.getD j default).pages.any fun p => p.id = pid) with
        | true =>
          simp only [hchk, if_true]
          exact List.Perm.refl _
        | false =>
          simp only [hchk, Bool.false_eq_true, if_false]
          cases hrr : ((s.documents.getD i default).removePages P).2 with
          | error e =>
            simp only [hrr]
            exact List.Perm.refl _
          | ok removed =>
            simp only [hrr]
            have hpair : (s.documents.getD i default).removePages P =
                (((s.documents.getD i default).removePages P).1, .ok removed) := by
              rw [← hrr]
            obtain ⟨hremperm, hremun⟩ := removePages_ok_ids _ _ _ _ hpair
            have har := addPages_ok
              (((s.documents.set i ((s.documents.getD i default).removePages P).1).getD j
                default)) removed hremun
            simp only [har]
            refine locations_set_set_perm s i j hilt hjlt _ _ (removed.map Page.id)
              hremperm ?_
            refine (updatePageNumbers_pageIDs _).trans ?_
            simp only [Document.pageIDs, List.map_append, assign_id_map]
            exact List.Perm.refl _

theorem firstIdx?_spec [Inhabited α] (p : α → Bool) (l : List α) (i : Nat)
    (h : firstIdx? p l = some i) : i < l.length ∧ p (l.getD i default) = true := by
  induction l generalizing i with
  | nil => cases h
  | cons a t ih =>
    unfold firstIdx? at h
    by_cases hpa : p a = true
    · rw [if_pos hpa] at h
      simp only [Option.some.injEq] at h
      subst h
      exact ⟨by simp, by simpa using hpa⟩
    · rw [if_neg hpa] at h
      cases hrec : firstIdx? p t with
      | none => rw [hrec] at h; cases h
      | some m =>
        rw [hrec] at h
        simp only [Option.map_some', Option.some.injEq] at h
        subst h
        obtain ⟨hlt, hp⟩ := ih m hrec
        exact ⟨by simpa using Nat.succ_lt_succ hlt, by simpa using hp⟩

theorem updateMetadata_pages (d : Document) (m : DocumentMetadata) :
    (d.updateMetadata m).pages = d.pages := by
  unfold Document.updateMetadata
  cases m.name <;> cases m.classification <;> cases m.shortDescription <;> rfl

theorem updateDocumentMetadata_locations_perm (s : Split) (docID : String)
    (m : DocumentMetadata) :
    List.Perm ((s.updateDocumentMetadata docID m).1.pageIDLocations) s.pageIDLocations := by
  unfold Split.updateDocumentMetadata
  by_cases h1 : s.status = splitStatusFinalized
  · rw [if_pos h1]
  · rw [if_neg h1]
    cases hidx : firstIdx? (fun d => d.id = docID) s.documents with
    | none => exact List.Perm.refl _
    | some i =>
      obtain ⟨hilt, _⟩ := firstIdx?_spec _ _ _ hidx
      simp only []
      have hpg : ((s.documents.getD i default).updateMetadata m).pageIDs =
          (s.documents.getD i default).pageIDs := by
        simp [Document.pageIDs, updateMetadata_pages]
      have e2 := flatten_map_set_perm Document.pageIDs s.documents i
        ((s.documents.getD i default).updateMetadata m) hilt
      rw [hpg] at e2
      have hfl := (List.perm_append_right_iff _).mp e2
      simp only [Split.pageIDLocations]
      exact List.Perm.append_right _ hfl

theorem finalize_locations (s : Split) (t : Int) :
    (((s.finalize t).toOption).getD s).pageIDLocations = s.pageIDLocations := by
  unfold Split.finalize
  by_cases h1 : s.status = splitStatusFinalized
  · rw [if_pos h1]; rfl
  · rw [if_neg h1]
    by_cases h2 : 0 < s.unassignedPages.length
    · rw [if_pos h2]; rfl
    · rw [if_neg h2]
      cases hv : s.valid with
      | some e => rfl
      | none => rfl

theorem addDocument_ok_char (s : Split) (d : Document) (s1 : Split)
    (h : s.addDocument d = .ok s1) : s1 = { s with documents := s.documents ++ [d] } := by
  unfold Split.addDocument at h
  by_cases h1 : s.status = splitStatusFinalized
  · rw [if_pos h1] at h; cases h
  · rw [if_neg h1] at h
    cases hv : d.valid with
    | some e => rw [hv] at h; cases h
    | none =>
      rw [hv] at h
      by_cases h2 : (s.documents.any fun ex => ex.id = d.id) = true
      · rw [if_pos h2] at h; cases h
      · rw [if_neg h2] at h
        by_cases h3 : (d.pages.any Page.isAssigned) = true
        · rw [if_pos h3] at h; cases h
        · rw [if_neg h3] at h
          simp only [Except.ok.injEq] at h
          exact h.symm

theorem removeDocument_ok_char (s : Split) (docID : String) (s1 : Split)
    (h : s.removeDocument docID = .ok s1) :
    ∃ docs1 removed, removeDocLoop docID s.documents = .ok (docs1, removed) ∧
      s1 = { s with documents := docs1,
                    unassignedPages := s.unassignedPages ++ removed } := by
  unfold Split.removeDocument at h
  by_cases h1 : s.status = splitStatusFinalized
  · rw [if_pos h1] at h; cases h
  · rw [if_neg h1] at h
    cases hloop : removeDocLoop docID s.documents with
    | error e => rw [hloop] at h; cases h
    | ok pr =>
      rw [hloop] at h
      obtain ⟨docs1, removed⟩ := pr
      simp only [Except.ok.injEq] at h
      exact ⟨docs1, removed, rfl, h.symm⟩

theorem applyOp_singleOwnership (s : Split) (op : SplitOp)
    (h : s.singleOwnership) (hok : addDocOK s op) : (s.applyOp op).singleOwnership := by
  cases op with
  | addDocument d =>
    obtain ⟨hnodup, hdisj⟩ := hok
    show ((s.addDocument d).toOption.getD s).singleOwnership
    cases hv : s.addDocument d with
    | error e => exact h
    | ok s1 =>
      rw [addDocument_ok_char s d s1 hv]
      show ({ s with documents := s.documents ++ [d] }).singleOwnership
      unfold Split.singleOwnership at h ⊢
      unfold Split.pageIDLocations at h ⊢
      simp only [List.map_append, List.map_cons, List.map_nil, List.flatten_append,
        List.flatten_cons, List.flatten_nil, List.append_nil]
      have hperm : List.Perm
          (((s.documents.map Document.pageIDs).flatten ++ d.pageIDs) ++
            s.unassignedPages.map Page.id)
          (((s.documents.map Document.pageIDs).flatten ++ s.unassignedPages.map Page.id) ++
            d.pageIDs) := by
        rw [List.append_assoc, List.append_assoc]
        exact List.Perm.append_left _ List.perm_append_comm
      refine hperm.symm.nodup ?_
      refine List.Nodup.append h hnodup ?_
      exact List.disjoint_right.mpr hdisj
  | removeDocument docID =>
    show ((s.removeDocument docID).toOption.getD s).singleOwnership
    cases hv : s.removeDocument docID with
    | error e => exact h
    | ok s1 =>
      obtain ⟨docs1, removed, hloop, hs1⟩ := removeDocument_ok_char s docID s1 hv
      subst hs1
      show Split.singleOwnership
        { s with documents := docs1, unassignedPages := s.unassignedPages ++ removed }
      have hperm := removeDocLoop_ok_char docID s.documents docs1 removed hloop
      unfold Split.singleOwnership at h ⊢
      unfold Split.pageIDLocations at h ⊢
      simp only [List.map_append]
      have hperm2 : List.Perm
          ((docs1.map Document.pageIDs).flatten ++
            (s.unassignedPages.map Page.id ++ removed.map Page.id))
          ((s.documents.map Document.pageIDs).flatten ++ s.unassignedPages.map Page.id) := by
        refine (List.Perm.append_left _ List.perm_append_comm).trans ?_
        refine List.Perm.trans ?_ (List.Perm.append_right _ hperm)
        rw [List.append_assoc]
      exact hperm2.symm.nodup h
  | movePages fromID toID P =>
    show ((s.movePages fromID toID P).1).singleOwnership
    exact ((movePages_locations_perm s fromID toID P).symm.nodup) h
  | updateDocumentMetadata docID m =>
    show ((s.updateDocumentMetadata docID m).1).singleOwnership
    exact ((updateDocumentMetadata_locations_perm s docID m).symm.nodup) h
  | finalize t =>
    show (((s.finalize t).toOption).getD s).singleOwnership
    unfold Split.singleOwnership
    rw [finalize_locations]
    exact h

theorem newPageCheck_ok (p q : Page) (h : newPageCheck p = .ok q) : q = p := by
  unfold newPageCheck at h
  cases hv : p.valid with
  | some e => rw [hv] at h; cases h
  | none => rw [hv] at h; simpa using h.symm

theorem newPage_ok_id (splitID url g : String) (p : Page)
    (h : newPage splitID url g = .ok p) : p.id = g := by
  unfold newPage at h
  cases hp : parsePageURL url with
  | none => rw [hp] at h; cases h
  | some n =>
    rw [hp] at h
    rw [newPageCheck_ok _ _ h]

theorem newPagesFromURLs_ids (splitID : String) (genID : Nat → String) (urls : List String)
    (k : Nat) (ps : List Page) (k2 : Nat)
    (h : newPagesFromURLs splitID genID urls k = .ok (ps, k2)) :
    ps.map Page.id = (List.range' k urls.length).map genID ∧ k2 = k + urls.length := by
  induction urls generalizing k ps k2 with
  | nil =>
    cases h
    exact ⟨rfl, rfl⟩
  | cons url rest ih =>
    unfold newPagesFromURLs at h
    cases hp : newPage splitID url (genID k) with
    | error e => rw [hp] at h; cases h
    | ok p =>
      rw [hp] at h
      cases hrec : newPagesFromURLs splitID genID rest (k + 1) with
      | error e => rw [hrec] at h; cases h
      | ok pr =>
        rw [hrec] at h
        obtain ⟨ps1, k21⟩ := pr
        simp only [Except.ok.injEq, Prod.mk.injEq] at h
        obtain ⟨hps, hk⟩ := h
        obtain ⟨hids, hk2⟩ := ih (k + 1) ps1 k21 hrec
        subst hps
        constructor
        · rw [List.length_cons, List.range'_succ]
          simp only [List.map_cons, hids, newPage_ok_id splitID url (genID k) p hp]
        · rw [List.length_cons]
          omega

theorem newDocumentCheck_ok (d doc : Document) (h : newDocumentCheck d = .ok doc) :
    doc = d := by
  unfold newDocumentCheck at h
  cases hv : d.valid with
  | some e => rw [hv] at h; cases h
  | none => rw [hv] at h; simpa using h.symm

theorem newDocument_ok_pages (id splitID name classification filename shortDescription : String)
    (pages : List Page) (doc : Document)
    (h : newDocument id splitID name classification filename shortDescription pages = .ok doc) :
    doc.pages = sortPages pages := by
  unfold newDocument at h
  rw [newDocumentCheck_ok _ _ h, updatePageNumbers_pages]

theorem newSplitDocs_ids (splitID : String) (genID : Nat → String) (dds : List NewDocumentData)
    (k : Nat) (docs : List Document) (k2 : Nat)
    (h : newSplitDocs splitID genID dds k = .ok (docs, k2)) :
    k2 = k + (dds.map (fun d => d.pageURLs.length)).sum ∧
    List.Perm ((docs.map Document.pageIDs).flatten)
      ((List.range' k ((dds.map (fun d => d.pageURLs.length)).sum)).map genID) := by
  induction dds generalizing k docs k2 with
  | nil =>
    cases h
    exact ⟨rfl, List.Perm.refl _⟩
  | cons dd rest ih =>
    unfold newSplitDocs at h
    cases hp : newPagesFromURLs splitID genID dd.pageURLs k with
    | error e => rw [hp] at h; cases h
    | ok pr =>
      obtain ⟨ps, k1⟩ := pr
      simp only [hp] at h
      cases hdoc : newDocument dd.id splitID dd.name dd.classification dd.filename
          dd.shortDescription ps with
      | error e => simp only [hdoc] at h; cases h
      | ok doc =>
        simp only [hdoc] at h
        cases hrec : newSplitDocs splitID genID rest k1 with
        | error e => simp only [hrec] at h; cases h
        | ok pr2 =>
          obtain ⟨docs1, k21⟩ := pr2
          simp only [hrec] at h
          simp only [Except.ok.injEq, Prod.mk.injEq] at h
          obtain ⟨hdocs, hk⟩ := h
          subst hdocs
          obtain ⟨hpids, hk1⟩ := newPagesFromURLs_ids splitID genID dd.pageURLs k ps k1 hp
          obtain ⟨hk21, hperm⟩ := ih k1 docs1 k21 hrec
          constructor
          · simp only [List.map_cons, List.sum_cons]
            omega
          · simp only [List.map_cons, List.flatten_cons, List.sum_cons]
            have hdocids : List.Perm doc.pageIDs (ps.map Page.id) := by
              unfold Document.pageIDs
              rw [newDocument_ok_pages _ _ _ _ _ _ _ _ hdoc]
              exact (List.perm_insertionSort pageLE ps).map Page.id
            have hsplit : List.range' k (dd.pageURLs.length +
                (rest.map (fun d => d.pageURLs.length)).sum) =
                List.range' k dd.pageURLs.length ++
                List.range' (k + dd.pageURLs.length)
                  ((rest.map (fun d => d.pageURLs.length)).sum) := by
              have := List.range'_append k dd.pageURLs.length
                ((rest.map (fun d => d.pageURLs.length)).sum) 1
              simpa [Nat.add_comm] using this.symm
            rw [hsplit, List.map_append]
            refine List.Perm.append ?_ ?_
            · rw [← hpids]
              exact hdocids
            · rw [← hk1]
              exact hperm

theorem newSplitCheck_ok (s s1 : Split) (h : newSplitCheck s = .ok s1) : s1 = s := by
  unfold newSplitCheck at h
  cases hv : s.valid with
  | some e => rw [hv] at h; cases h
  | none => rw [hv] at h; simpa using h.symm

theorem newSplit_singleOwnership (data : NewSplitData) (genID : Nat → String) (now : Int)
    (s0 : Split) (hgen : ((List.range (totalPageCount data)).map genID).Nodup)
    (h : newSplit data genID now = .ok s0) : s0.singleOwnership := by
  unfold newSplit at h
  cases hd : newSplitDocs data.id genID data.documents 0 with
  | error e => rw [hd] at h; cases h
  | ok pr =>
    obtain ⟨docs, kf⟩ := pr
    simp only [hd] at h
    obtain ⟨hk, hperm⟩ := newSplitDocs_ids data.id genID data.documents 0 docs kf hd
    rw [newSplitCheck_ok _ _ h]
    unfold Split.singleOwnership Split.pageIDLocations
    simp only [List.map_nil, List.append_nil]
    refine hperm.symm.nodup ?_
    have : List.range' 0 ((data.documents.map (fun d => d.pageURLs.length)).sum) =
        List.range (totalPageCount data) := by
      rw [List.range_eq_range']
      rfl
    rw [this]
    exact hgen

/-- The state after every prefix of an admissible mutation sequence
keeps single ownership. -/
theorem applyOps_singleOwnership (ops : List SplitOp) (s : Split)
    (h : s.singleOwnership) (hseq : okSeq s ops) :
    ∀ n, (s.applyOps (ops.take n)).singleOwnership := by
  induction ops generalizing s with
  | nil =>
    intro n
    simpa [Split.applyOps] using h
  | cons op rest ih =>
    intro n
    cases n with
    | zero => simpa [Split.applyOps] using h
    | succ n =>
      have h1 := applyOp_singleOwnership s op h hseq.1
      have h2 := ih (s.applyOp op) h1 hseq.2 n
      simpa [Split.applyOps] using h2

/-- C1 (amended): for every Split built by `NewSplit` from distinct
generated page IDs and every admissible mutation sequence — admissible
meaning each `AddDocument` step adds a document whose page IDs are
duplicate-free and not yet present anywhere in the split, which the
code does not itself check — every page ID appears in at most one place
across all documents' page lists and the unassigned pool after every
step of the sequence. -/
theorem singleOwnership_invariant (data : NewSplitData) (genID : Nat → String) (now : Int)
    (s0 : Split) (ops : List SplitOp)
    (hgen : ((List.range (totalPageCount data)).map genID).Nodup)
    (h0 : newSplit data genID now = .ok s0)
    (hseq : okSeq s0 ops) :
    ∀ n, (s0.applyOps (ops.take n)).singleOwnership :=
  applyOps_singleOwnership ops s0 (newSplit_singleOwnership data genID now s0 hgen h0) hseq

/-- Witness for C1 (amended): a remove-then-add sequence on the
concrete split keeps single ownership at every step. -/
theorem singleOwnership_invariant_witness :
    (splitAB.applyOps ([SplitOp.removeDocument "A",
      SplitOp.addDocument freshDoc].take 2)).singleOwnership :=
  singleOwnership_invariant splitABData splitABGen 0 splitAB
    [SplitOp.removeDocument "A", SplitOp.addDocument freshDoc]
    (by decide) (by decide) ⟨trivial, by decide, trivial⟩ 2

/-! ## C7 (amended): the move round trip under distinct page numbers -/

theorem pages_sorted_sortPages (l : List Page) : List.Pairwise pageLE (sortPages l) :=
  List.sorted_insertionSort pageLE l

theorem sorted_nodupKeys_perm_eq : ∀ (l1 l2 : List Page), List.Perm l1 l2 →
    List.Pairwise pageLE l1 → List.Pairwise pageLE l2 →
    (l2.map Page.pageNumber).Nodup → l1 = l2 := by
  intro l1
  induction l1 with
  | nil =>
    intro l2 hp _ _ _
    exact hp.nil_eq
  | cons a t1 ih =>
    intro l2 hp hs1 hs2 hnd
    cases l2 with
    | nil => exact absurd hp.eq_nil (by simp)
    | cons b t2 =>
      by_cases hab : a = b
      · subst hab
        rw [ih t2 hp.cons_inv hs1.of_cons hs2.of_cons
          (by simpa using (List.nodup_cons.mp (by simpa using hnd)).2)]
      · exfalso
        have hamem : a ∈ b :: t2 := hp.mem_iff.mp (by simp)
        have hat2 : a ∈ t2 := by
          rcases List.mem_cons.mp hamem with h | h
          · exact absurd h hab
          · exact h
        have hbmem : b ∈ a :: t1 := hp.mem_iff.mpr (by simp)
        have hbt1 : b ∈ t1 := by
          rcases List.mem_cons.mp hbmem with h | h
          · exact absurd h.symm hab
          · exact h
        have h1 : pageLE a b := (List.pairwise_cons.mp hs1).1 b hbt1
        have h2 : pageLE b a := (List.pairwise_cons.mp hs2).1 a hat2
        have heq : b.pageNumber = a.pageNumber := le_antisymm h2 h1
        have hin : b.pageNumber ∈ t2.map Page.pageNumber := by
          rw [heq]
          exact List.mem_map_of_mem _ hat2
        exact (List.nodup_cons.mp (by simpa using hnd)).1 hin

theorem updatePageNumbers_eq (d : Document) :
    d.updatePageNumbers =
      { d with pages := sortPages d.pages,
               startPage := ((sortPages d.pages).map Page.url).headD "",
               endPage := ((sortPages d.pages).map Page.url).getLastD "" } := by
  unfold Document.updatePageNumbers
  cases h : sortPages d.pages with
  | nil => simp [h]
  | cons p rest =>
    simp only [h, List.map_cons, List.headD_cons]
    have hlast : (p.url :: List.map Page.url rest).getLastD "" =
        ((p :: rest).getLast (by simp)).url := by
      rw [show p.url :: List.map Page.url rest = (p :: rest).map Page.url from rfl]
      rw [List.getLastD_eq_getLast?, List.getLast?_map, List.getLast?_eq_getLast _ (by simp)]
      rfl
    rw [hlast]

theorem set_getD_self (l : List Document) (n : Nat) (a : Document)
    (hn : n < l.length) (ha : l.getD n default = a) : l.set n a = l := by
  induction l generalizing n with
  | nil => cases hn
  | cons x t ih =>
    cases n with
    | zero =>
      simp only [List.getD_cons_zero] at ha
      rw [← ha]
      rfl
    | succ n =>
      simp only [List.getD_cons_succ] at ha
      simp only [List.set_cons_succ]
      rw [ih n (by simpa using hn) ha]

theorem lastIdx?_congr (p : α → Bool) (q : β → Bool) :
    ∀ (l1 : List α) (l2 : List β), l1.map p = l2.map q →
    lastIdx? p l1 = lastIdx? q l2 := by
  intro l1
  induction l1 with
  | nil =>
    intro l2 h
    cases l2 with
    | nil => rfl
    | cons b t2 => cases h
  | cons a t1 ih =>
    intro l2 h
    cases l2 with
    | nil => cases h
    | cons b t2 =>
      simp only [List.map_cons, List.cons.injEq] at h
      unfold lastIdx?
      rw [ih t2 h.2, h.1]

theorem getD_set_ne {α : Type} [Inhabited α] (l : List α) (i j : Nat) (a : α) (h : i ≠ j) :
    (l.set i a).getD j default = l.getD j default := by
  rw [List.getD_eq_getElem?_getD, List.getD_eq_getElem?_getD, List.getElem?_set_ne h]

theorem updatePageNumbers_idem (d : Document) :
    (d.updatePageNumbers).updatePageNumbers = d.updatePageNumbers := by
  rw [updatePageNumbers_eq d, updatePageNumbers_eq]
  have hs : sortPages (sortPages d.pages) = sortPages d.pages :=
    List.Sorted.insertionSort_eq (List.sorted_insertionSort pageLE d.pages)
  simp only [hs]

theorem removePages_eval (d : Document) (P : List String)
    (hnorm : d.updatePageNumbers = d)
    (hsucc : P ≠ [] → d.pages.filter (fun p => P.contains p.id) ≠ []) :
    d.removePages P =
      (Document.updatePageNumbers { d with pages := d.pages.filter fun p => !P.contains p.id },
       .ok ((d.pages.filter fun p => P.contains p.id).map Page.unassign)) := by
  unfold Document.removePages
  by_cases hP : P = []
  · subst hP
    have hf1 : d.pages.filter (fun p => ([] : List String).contains p.id) = [] := by
      simp
    have hf2 : d.pages.filter (fun p => !([] : List String).contains p.id) = d.pages := by
      simp
    rw [if_pos rfl, hf1, hf2]
    have : ({ d with pages := d.pages } : Document) = d := rfl
    rw [this, hnorm]
    simp
  · rw [if_neg hP, if_neg (hsucc hP)]

theorem removePages_snd_ok (d : Document) (P : List String) (removed : List Page)
    (hnorm : d.updatePageNumbers = d)
    (h : (d.removePages P).2 = .ok removed) :
    removed = (d.pages.filter fun p => P.contains p.id).map Page.unassign ∧
    (d.removePages P).1 =
      Document.updatePageNumbers { d with pages := d.pages.filter fun p => !P.contains p.id } := by
  by_cases hP : P = []
  · rw [removePages_eval d P hnorm (fun hc => absurd hP hc)] at h ⊢
    simp only [Except.ok.injEq] at h
    exact ⟨h.symm, rfl⟩
  · by_cases hrem : d.pages.filter (fun p => P.contains p.id) = []
    · exfalso
      unfold Document.removePages at h
      rw [if_neg hP] at h
      rw [hrem] at h
      simp at h
    · rw [removePages_eval d P hnorm (fun _ => hrem)] at h ⊢
      simp only [Except.ok.injEq] at h
      exact ⟨h.symm, rfl⟩

theorem mem_map_unassign (l : List Page) (p : Page) (h : p ∈ l.map Page.unassign) :
    p.isAssigned = false := by
  obtain ⟨q, _, hq⟩ := List.mem_map.mp h
  rw [← hq]
  rfl

theorem map_unassign_assign (l : List Page) (x : String) :
    ((l.map (fun p => { p with documentID := some x })).map Page.unassign) =
      l.map Page.unassign := by
  simp [List.map_map, Function.comp, Page.unassign]

theorem map_unassign_idem (l : List Page) :
    ((l.map Page.unassign).map Page.unassign) = l.map Page.unassign := by
  simp [List.map_map, Function.comp, Page.unassign]

theorem pairwise_map_unassign (l : List Page) (h : List.Pairwise pageLE l) :
    List.Pairwise pageLE (l.map Page.unassign) := by
  rw [List.pairwise_map]
  exact h.imp (fun hab => hab)

theorem map_num_unassign (l : List Page) :
    (l.map Page.unassign).map Page.pageNumber = l.map Page.pageNumber := by
  simp [List.map_map, Function.comp, Page.unassign]

theorem map_url_unassign (l : List Page) :
    (l.map Page.unassign).map Page.url = l.map Page.url := by
  simp [List.map_map, Function.comp, Page.unassign]

theorem map_id_unassign (l : List Page) :
    (l.map Page.unassign).map Page.id = l.map Page.id := by
  simp [List.map_map, Function.comp, Page.unassign]

theorem movePages_ok_char (s : Split) (fromID toID : String) (P : List String) (s1 : Split)
    (h : s.movePages fromID toID P = (s1, none)) :
    ∃ i j, s.status ≠ splitStatusFinalized ∧
      lastIdx? (fun d => d.id = fromID) s.documents = some i ∧
      lastIdx? (fun d => d.id = toID) s.documents = some j ∧
      (s.documents.getD i default).id = fromID ∧
      (s.documents.getD j default).id = toID ∧
      (∀ pid ∈ P, ∀ p ∈ (s.documents.getD j default).pages, p.id ≠ pid) ∧
      (P ≠ [] → (s.documents.getD i default).pages.filter
        (fun p => P.contains p.id) ≠ []) ∧
      ∃ removed,
        (s.documents.getD i default).removePages P =
          (((s.documents.getD i default).removePages P).1, .ok removed) ∧
        (∀ p ∈ removed, p.isAssigned = false) ∧
        s1 = moveResult s i j ((s.documents.getD i default).removePages P).1 removed := by
  unfold Split.movePages at h
  by_cases hst : s.status = splitStatusFinalized
  · rw [if_pos hst] at h
    exact absurd (congrArg Prod.snd h) (by simp)
  · rw [if_neg hst] at h
    cases hi : lastIdx? (fun d => d.id = fromID) s.documents with
    | none =>
      simp only [hi] at h
      exact absurd (congrArg Prod.snd h) (by simp)
    | some i =>
      cases hj : lastIdx? (fun d => d.id = toID) s.documents with
      | none =>
        simp only [hi, hj] at h
        exact absurd (congrArg Prod.snd h) (by simp)
      | some j =>
        obtain ⟨hilt, hip⟩ := lastIdx?_spec _ _ _ hi
        obtain ⟨hjlt, hjp⟩ := lastIdx?_spec _ _ _ hj
        cases hchk : (P.any fun pid =>
            (s.documents.getD j default).pages.any fun p => p.id = pid) with
        | true =>
          simp only [hi, hj, hchk, if_true] at h
          exact absurd (congrArg Prod.snd h) (by simp)
        | false =>
          simp only [hi, hj, hchk, Bool.false_eq_true, if_false] at h
          cases hrr : ((s.documents.getD i default).removePages P).2 with
          | error e =>
            simp only [hrr] at h
            exact absurd (congrArg Prod.snd h) (by simp)
          | ok removed =>
            simp only [hrr] at h
            have hpair : (s.documents.getD i default).removePages P =
                (((s.documents.getD i default).removePages P).1, .ok removed) := by
              rw [← hrr]
            obtain ⟨_, hremun⟩ := removePages_ok_ids _ _ _ _ hpair
            have har := addPages_ok
              ((s.documents.set i ((s.documents.getD i default).removePages P).1).getD j
                default) removed hremun
            simp only [har] at h
            refine ⟨i, j, hst, rfl, rfl, by simpa using hip, by simpa using hjp, ?_, ?_,
              removed, hpair, hremun, ?_⟩
            · intro pid hpid p hp
              have := List.any_eq_false.mp hchk pid hpid
              intro he
              exact this (List.any_eq_true.mpr ⟨p, hp, by simp [he]⟩)
            · intro hP hfil
              unfold Document.removePages at hrr
              rw [if_neg hP, hfil] at hrr
              simp at hrr
            · show s1 = moveResult s i j ((s.documents.getD i default).removePages P).1 removed
              unfold moveResult moveResultDoc
              exact (congrArg Prod.fst h).symm

theorem movePages_eval (s : Split) (fromID toID : String) (P : List String) (i j : Nat)
    (hst : s.status ≠ splitStatusFinalized)
    (hi : lastIdx? (fun d => d.id = fromID) s.documents = some i)
    (hj : lastIdx? (fun d => d.id = toID) s.documents = some j)
    (hchk : ∀ pid ∈ P, ∀ p ∈ (s.documents.getD j default).pages, p.id ≠ pid)
    (hAnorm : (s.documents.getD i default).updatePageNumbers = s.documents.getD i default)
    (hsucc : P ≠ [] →
      (s.documents.getD i default).pages.filter (fun p => P.contains p.id) ≠ []) :
    s.movePages fromID toID P =
      (moveResult s i j
        (Document.updatePageNumbers { s.documents.getD i default with pages := (s.documents.getD i default).pages.filter (fun p => !P.contains p.id) })
        (((s.documents.getD i default).pages.filter (fun p => P.contains p.id)).map
          Page.unassign),
       none) := by
  unfold Split.movePages
  rw [if_neg hst, hi, hj]
  have hchkB : (P.any fun pid =>
      (s.documents.getD j default).pages.any fun p => p.id = pid) = false := by
    simp only [List.any_eq_false]
    intro pid hpid hp
    obtain ⟨p, hpmem, hpe⟩ := List.any_eq_true.mp hp
    exact hchk pid hpid p hpmem (by simpa using hpe)
  have hrw := removePages_eval (s.documents.getD i default) P hAnorm hsucc
  have hun : ∀ p ∈ ((s.documents.getD i default).pages.filter
      (fun p => P.contains p.id)).map Page.unassign, p.isAssigned = false :=
    fun p hp => mem_map_unassign _ p hp
  have har := addPages_ok
    ((s.documents.set i (Document.updatePageNumbers { s.documents.getD i default with pages := (s.documents.getD i default).pages.filter (fun p => !P.contains p.id) })).getD j default)
    (((s.documents.getD i default).pages.filter (fun p => P.contains p.id)).map Page.unassign)
    hun
  simp only [hchkB, Bool.false_eq_true, if_false, hrw, har]
  unfold moveResult moveResultDoc
  rfl

theorem getD_set_self {α : Type} [Inhabited α] (l : List α) (n : Nat) (a : α)
    (hn : n < l.length) : (l.set n a).getD n default = a := by
  rw [List.getD_eq_getElem?_getD, List.getElem?_set_self ?h]
  · simp
  · exact hn

theorem map_set_eq {α β : Type} [Inhabited α] (f : α → β) (l : List α) (n : Nat) (a : α)
    (ha : f a = f (l.getD n default)) : (l.set n a).map f = l.map f := by
  induction l generalizing n with
  | nil => rfl
  | cons x t ih =>
    cases n with
    | zero =>
      simp only [List.getD_cons_zero] at ha
      simp [List.set_cons_zero, ha]
    | succ n =>
      simp only [List.getD_cons_succ] at ha
      simp only [List.set_cons_succ, List.map_cons, List.cons.injEq, true_and]
      exact ih n ha

theorem updatePageNumbers_id (d : Document) : (d.updatePageNumbers).id = d.id := by
  rw [updatePageNumbers_eq]

theorem updatePageNumbers_pages_eq (d : Document) :
    (d.updatePageNumbers).pages = sortPages d.pages := by
  rw [updatePageNumbers_eq]

theorem updatePageNumbers_startPage (d : Document) :
    (d.updatePageNumbers).startPage = ((sortPages d.pages).map Page.url).headD "" := by
  rw [updatePageNumbers_eq]

theorem updatePageNumbers_endPage (d : Document) :
    (d.updatePageNumbers).endPage = ((sortPages d.pages).map Page.url).getLastD "" := by
  rw [updatePageNumbers_eq]

theorem normalized_pages_sorted (d : Document) (h : d.updatePageNumbers = d) :
    List.Pairwise pageLE d.pages := by
  have := congrArg Document.pages h
  rw [updatePageNumbers_pages_eq] at this
  rw [← this]
  exact pages_sorted_sortPages d.pages

theorem normalized_startPage (d : Document) (h : d.updatePageNumbers = d) :
    d.startPage = (d.pages.map Page.url).headD "" := by
  have hp := congrArg Document.pages h
  rw [updatePageNumbers_pages_eq] at hp
  have hs := congrArg Document.startPage h
  rw [updatePageNumbers_startPage, hp] at hs
  exact hs.symm

theorem normalized_endPage (d : Document) (h : d.updatePageNumbers = d) :
    d.endPage = (d.pages.map Page.url).getLastD "" := by
  have hp := congrArg Document.pages h
  rw [updatePageNumbers_pages_eq] at hp
  have hs := congrArg Document.endPage h
  rw [updatePageNumbers_endPage, hp] at hs
  exact hs.symm

theorem contains_eq_false_iff (P : List String) (x : String) :
    P.contains x = false ↔ x ∉ P := by
  rw [show P.contains x = P.elem x from rfl]
  constructor
  · intro h hm
    rw [List.elem_iff.mpr hm] at h
    cases h
  · intro h
    cases he : P.elem x with
    | false => rfl
    | true => exact absurd (List.elem_iff.mp he) h

theorem updatePageNumbers_splitID (d : Document) :
    (d.updatePageNumbers).splitID = d.splitID := by
  rw [updatePageNumbers_eq]

theorem updatePageNumbers_name (d : Document) : (d.updatePageNumbers).name = d.name := by
  rw [updatePageNumbers_eq]

theorem updatePageNumbers_classification (d : Document) :
    (d.updatePageNumbers).classification = d.classification := by
  rw [updatePageNumbers_eq]

theorem updatePageNumbers_filename (d : Document) :
    (d.updatePageNumbers).filename = d.filename := by
  rw [updatePageNumbers_eq]

theorem updatePageNumbers_shortDescription (d : Document) :
    (d.updatePageNumbers).shortDescription = d.shortDescription := by
  rw [updatePageNumbers_eq]

theorem document_ext_fields (d1 d2 : Document) (h1 : d1.id = d2.id)
    (h2 : d1.splitID = d2.splitID) (h3 : d1.name = d2.name)
    (h4 : d1.classification = d2.classification) (h5 : d1.filename = d2.filename)
    (h6 : d1.shortDescription = d2.shortDescription) (h7 : d1.pages = d2.pages)
    (h8 : d1.startPage = d2.startPage) (h9 : d1.endPage = d2.endPage) : d1 = d2 := by
  cases d1
  cases d2
  simp_all

set_option maxHeartbeats 1000000

/-- C7 (amended): on a non-finalized split whose documents are in the
normalized state the code maintains (pages sorted, bounds derived) and
whose page numbers are pairwise distinct within each document, a
successful `MovePages` of page-ID set `P` from document `A` to a
different document `B` can be undone: moving the same `P` back succeeds
and restores `A`'s and `B`'s page membership (including order) and both
documents' `StartPage`/`EndPage` bounds — only position `i` (document
`A`) changes at all, and there only the pages' `DocumentID` marks.
Without the distinct-page-number hypothesis the bounds need not be
restored (see the counterexample). -/
theorem movePages_roundTrip_restores (s : Split) (aID bID : String) (P : List String)
    (s1 : Split)
    (hab : aID ≠ bID)
    (hnorm : ∀ d ∈ s.documents, d.updatePageNumbers = d)
    (hnums : ∀ d ∈ s.documents, (d.pages.map Page.pageNumber).Nodup)
    (h1 : s.movePages aID bID P = (s1, none)) :
    ∃ s2 i A2,
      s1.movePages bID aID P = (s2, none) ∧
      lastIdx? (fun d => d.id = aID) s.documents = some i ∧
      s2.documents = s.documents.set i A2 ∧
      s2.unassignedPages = s.unassignedPages ∧
      s2.status = s.status ∧
      A2.pageIDs = (s.documents.getD i default).pageIDs ∧
      A2.pages.map Page.unassign = (s.documents.getD i default).pages.map Page.unassign ∧
      A2.startPage = (s.documents.getD i default).startPage ∧
      A2.endPage = (s.documents.getD i default).endPage ∧
      A2.id = (s.documents.getD i default).id := by
  obtain ⟨i, j, hst, hi, hj, hiA, hjB, hchk1, hsucc1, removed, hpair, hremun, hs1⟩ :=
    movePages_ok_char s aID bID P s1 h1
  obtain ⟨hilt, _⟩ := lastIdx?_spec _ _ _ hi
  obtain ⟨hjlt, _⟩ := lastIdx?_spec _ _ _ hj
  have hij : i ≠ j := by
    intro he
    subst he
    exact hab (hiA ▸ hjB)
  have hAmem : s.documents.getD i default ∈ s.documents := by
    rw [List.getD_eq_getElem _ _ hilt]
    exact List.getElem_mem hilt
  have hBmem : s.documents.getD j default ∈ s.documents := by
    rw [List.getD_eq_getElem _ _ hjlt]
    exact List.getElem_mem hjlt
  have hAnorm := hnorm _ hAmem
  have hBnorm := hnorm _ hBmem
  have hAnums := hnums _ hAmem
  have hBnums := hnums _ hBmem
  obtain ⟨hrem, hrm1⟩ := removePages_snd_ok _ P removed hAnorm (by rw [hpair])
  subst hrem
  subst hs1
  rw [hrm1]
  set A := s.documents.getD i default with hA
  set B := s.documents.getD j default with hB
  set A1 := Document.updatePageNumbers { A with pages := A.pages.filter (fun p => !P.contains p.id) } with hA1
  set R := (A.pages.filter (fun p => P.contains p.id)).map Page.unassign with hR
  set D1 := s.documents.set i A1 with hD1
  have hlenD1 : D1.length = s.documents.length := by rw [hD1, List.length_set]
  have hD1j : D1.getD j default = B := by
    rw [hD1, getD_set_ne _ _ _ _ hij, hB]
  have hD1i : D1.getD i default = A1 := by
    rw [hD1, getD_set_self _ _ _ hilt]
  set B1 := moveResultDoc D1 j R with hB1def
  have hB1eq : B1 = Document.updatePageNumbers { B with pages := B.pages ++ R.map (fun p => { p with documentID := some B.id }) } := by
    rw [hB1def]
    unfold moveResultDoc
    rw [hD1j]
  set Rass := R.map (fun p => { p with documentID := some B.id }) with hRass
  have hA1id : A1.id = A.id := updatePageNumbers_id _
  have hA1pages : A1.pages = sortPages (A.pages.filter (fun p => !P.contains p.id)) :=
    updatePageNumbers_pages_eq _
  have hB1id : B1.id = B.id := by rw [hB1eq]; exact updatePageNumbers_id _
  have hB1pages : B1.pages = sortPages (B.pages ++ Rass) := by
    rw [hB1eq]
    exact updatePageNumbers_pages_eq _
  have hB1norm : B1.updatePageNumbers = B1 := by
    rw [hB1eq]
    exact updatePageNumbers_idem _
  -- the state after the forward move
  have hs1docs : (moveResult s i j A1 R).documents = D1.set j B1 := rfl
  have hs1status : (moveResult s i j A1 R).status = s.status := rfl
  have hs1un : (moveResult s i j A1 R).unassignedPages = s.unassignedPages := rfl
  -- id-map facts for the reverse lookups
  have hmapset : ∀ (q : Document → Bool), (∀ d1 d2 : Document, d1.id = d2.id → q d1 = q d2) →
      (D1.set j B1).map q = s.documents.map q := by
    intro q hq
    have h1 : (D1.set j B1).map q = D1.map q := by
      refine map_set_eq q D1 j B1 ?_
      rw [hD1j]
      exact hq _ _ (by rw [hB1id])
    have h2 : D1.map q = s.documents.map q := by
      rw [hD1]
      refine map_set_eq q s.documents i A1 ?_
      exact hq _ _ (by rw [hA1id, hA])
    rw [h1, h2]
  have hlastB : lastIdx? (fun d => decide (d.id = bID)) (D1.set j B1) = some j := by
    rw [lastIdx?_congr _ (fun d => decide (d.id = bID)) _ s.documents
      (hmapset _ (fun d1 d2 he => by rw [he]))]
    exact hj
  have hlastA : lastIdx? (fun d => decide (d.id = aID)) (D1.set j B1) = some i := by
    rw [lastIdx?_congr _ (fun d => decide (d.id = aID)) _ s.documents
      (hmapset _ (fun d1 d2 he => by rw [he]))]
    exact hi
  have hsetji : (D1.set j B1).getD i default = A1 := by
    rw [getD_set_ne _ _ _ _ hij.symm, hD1i]
  have hsetjj : (D1.set j B1).getD j default = B1 := by
    refine getD_set_self _ _ _ ?_
    rw [hlenD1]
    exact hjlt
  -- pages of A1 carry no requested ID
  have hchkA1 : ∀ pid ∈ P, ∀ p ∈ A1.pages, p.id ≠ pid := by
    intro pid hpid p hp
    rw [hA1pages] at hp
    have hp2 : p ∈ A.pages.filter (fun p => !P.contains p.id) :=
      (List.perm_insertionSort pageLE _).mem_iff.mp hp
    have := (List.mem_filter.mp hp2).2
    simp only [Bool.not_eq_true'] at this
    intro he
    rw [he] at this
    exact (contains_eq_false_iff P pid).mp this hpid
  -- every appended page carries a requested ID
  have hRassIn : ∀ p ∈ Rass, P.contains p.id = true := by
    intro p hp
    rw [hRass, hR] at hp
    simp only [List.map_map, List.mem_map] at hp
    obtain ⟨q, hq, hqe⟩ := hp
    have := (List.mem_filter.mp hq).2
    rw [← hqe]
    simpa using this
  -- no page of B carries a requested ID
  have hBclean : ∀ p ∈ B.pages, P.contains p.id = false := by
    intro p hp
    by_contra hc
    have hc2 : P.contains p.id = true := by
      cases h : P.contains p.id
      · exact absurd h hc
      · rfl
    have hmem := List.elem_iff.mp hc2
    exact hchk1 p.id hmem p hp rfl
  have hfilterB1in : List.Perm (B1.pages.filter (fun p => P.contains p.id)) Rass := by
    rw [hB1pages]
    refine ((List.perm_insertionSort pageLE _).filter _).trans ?_
    rw [List.filter_append]
    rw [List.filter_eq_nil_iff.mpr (fun p hp => by rw [hBclean p hp]; simp)]
    rw [List.filter_eq_self.mpr (fun p hp => hRassIn p hp)]
    exact List.Perm.refl _
  have hfilterB1out : List.Perm (B1.pages.filter (fun p => !P.contains p.id)) B.pages := by
    rw [hB1pages]
    refine ((List.perm_insertionSort pageLE _).filter _).trans ?_
    rw [List.filter_append]
    rw [List.filter_eq_self.mpr (fun p hp => by rw [hBclean p hp]; rfl)]
    rw [List.filter_eq_nil_iff.mpr (fun p hp => by rw [hRassIn p hp]; simp)]
    rw [List.append_nil]
  have hsucc2 : P ≠ [] → B1.pages.filter (fun p => P.contains p.id) ≠ [] := by
    intro hP
    have hRne : Rass ≠ [] := by
      rw [hRass, hR]
      simp only [ne_eq, List.map_eq_nil_iff]
      exact hsucc1 hP
    intro hc
    rw [hc] at hfilterB1in
    exact hRne hfilterB1in.nil_eq.symm
  -- apply the forward evaluation to the reverse move
  have heval := movePages_eval (moveResult s i j A1 R) bID aID P j i hst hlastB hlastA
    (fun pid hpid p hp => hchkA1 pid hpid p (by rw [hs1docs, hsetji] at hp; exact hp))
    (by rw [hs1docs, hsetjj]; exact hB1norm)
    (by rw [hs1docs, hsetjj]; exact hsucc2)
  rw [hs1docs] at heval
  rw [hsetjj] at heval
  set R2 := (B1.pages.filter (fun p => P.contains p.id)).map Page.unassign with hR2def
  set B2 := Document.updatePageNumbers { B1 with pages := B1.pages.filter (fun p => !P.contains p.id) } with hB2def
  -- the moved-back target restores the original B exactly
  have hsortY : sortPages (B1.pages.filter (fun p => !P.contains p.id)) = B.pages :=
    sorted_nodupKeys_perm_eq _ _ ((List.perm_insertionSort pageLE _).trans hfilterB1out)
      (pages_sorted_sortPages _) (normalized_pages_sorted B hBnorm) hBnums
  have hB1splitID : B1.splitID = B.splitID := by
    rw [hB1eq]; exact updatePageNumbers_splitID _
  have hB1name : B1.name = B.name := by
    rw [hB1eq]; exact updatePageNumbers_name _
  have hB1class : B1.classification = B.classification := by
    rw [hB1eq]; exact updatePageNumbers_classification _
  have hB1file : B1.filename = B.filename := by
    rw [hB1eq]; exact updatePageNumbers_filename _
  have hB1desc : B1.shortDescription = B.shortDescription := by
    rw [hB1eq]; exact updatePageNumbers_shortDescription _
  have hB2B : B2 = B := by
    refine document_ext_fields _ _ ?_ ?_ ?_ ?_ ?_ ?_ ?_ ?_ ?_
    · rw [hB2def, updatePageNumbers_id]; exact hB1id
    · rw [hB2def, updatePageNumbers_splitID]; exact hB1splitID
    · rw [hB2def, updatePageNumbers_name]; exact hB1name
    · rw [hB2def, updatePageNumbers_classification]; exact hB1class
    · rw [hB2def, updatePageNumbers_filename]; exact hB1file
    · rw [hB2def, updatePageNumbers_shortDescription]; exact hB1desc
    · rw [hB2def, updatePageNumbers_pages_eq]; exact hsortY
    · rw [hB2def, updatePageNumbers_startPage]
      rw [show ({ B1 with pages := B1.pages.filter (fun p => !P.contains p.id) } : Document).pages = B1.pages.filter (fun p => !P.contains p.id) from rfl]
      rw [hsortY]
      exact (normalized_startPage B hBnorm).symm
    · rw [hB2def, updatePageNumbers_endPage]
      rw [show ({ B1 with pages := B1.pages.filter (fun p => !P.contains p.id) } : Document).pages = B1.pages.filter (fun p => !P.contains p.id) from rfl]
      rw [hsortY]
      exact (normalized_endPage B hBnorm).symm
  -- collapse the document list of the final state
  have hcollapse1 : (D1.set j B1).set j B2 = D1.set j B := by
    rw [List.set_set, hB2B]
  have hgetA1 : ((D1.set j B1).set j B2).getD i default = A1 := by
    rw [hcollapse1, getD_set_ne _ _ _ _ hij.symm, hD1i]
  set A2 := moveResultDoc ((D1.set j B1).set j B2) i R2 with hA2def
  have hA2eq : A2 = Document.updatePageNumbers { A1 with pages := A1.pages ++ R2.map (fun p => { p with documentID := some A1.id }) } := by
    rw [hA2def]
    unfold moveResultDoc
    rw [hgetA1]
  have hdocsFinal : ((D1.set j B1).set j B2).set i A2 = s.documents.set i A2 := by
    rw [hcollapse1, hD1]
    rw [List.set_comm _ _ _ hij.symm]
    rw [List.set_set]
    refine set_getD_self _ _ _ ?_ ?_
    · rw [List.length_set]
      exact hjlt
    · rw [getD_set_ne _ _ _ _ hij, hB]
  set R2ass := R2.map (fun p => { p with documentID := some A1.id }) with hR2assDef
  have hA2pages : A2.pages = sortPages (A1.pages ++ R2ass) := by
    rw [hA2eq]
    exact updatePageNumbers_pages_eq _
  have hR2unassign : R2.map Page.unassign = R2 := by
    rw [hR2def]
    exact map_unassign_idem _
  have hRassunR : Rass.map Page.unassign = R := by
    rw [hRass, map_unassign_assign, hR]
    exact map_unassign_idem _
  have hR2permR : List.Perm R2 R := by
    rw [hR2def]
    refine (hfilterB1in.map Page.unassign).trans ?_
    rw [hRassunR]
  have hright : List.Perm (R2ass.map Page.unassign)
      ((A.pages.filter (fun p => P.contains p.id)).map Page.unassign) := by
    rw [hR2assDef, map_unassign_assign, hR2unassign, ← hR]
    exact hR2permR
  have hleft : List.Perm (A1.pages.map Page.unassign)
      ((A.pages.filter (fun p => !P.contains p.id)).map Page.unassign) := by
    rw [hA1pages]
    exact (List.perm_insertionSort pageLE _).map Page.unassign
  have hW : A2.pages.map Page.unassign = A.pages.map Page.unassign := by
    refine sorted_nodupKeys_perm_eq _ _ ?_ ?_ ?_ ?_
    · rw [hA2pages]
      refine ((List.perm_insertionSort pageLE (A1.pages ++ R2ass)).map Page.unassign).trans ?_
      rw [List.map_append]
      refine (List.Perm.append hleft hright).trans ?_
      rw [← List.map_append]
      refine List.Perm.map Page.unassign ?_
      refine List.Perm.trans List.perm_append_comm ?_
      exact List.filter_append_perm _ A.pages
    · refine pairwise_map_unassign _ ?_
      rw [hA2pages]
      exact pages_sorted_sortPages _
    · exact pairwise_map_unassign _ (normalized_pages_sorted A hAnorm)
    · rw [map_num_unassign]
      exact hAnums
  have hA2ids : A2.pageIDs = A.pageIDs := by
    unfold Document.pageIDs
    rw [← map_id_unassign A2.pages, hW, map_id_unassign]
  have hA2id : A2.id = A.id := by
    rw [hA2eq, updatePageNumbers_id]
    exact hA1id
  have hA2start : A2.startPage = A.startPage := by
    rw [hA2eq, updatePageNumbers_startPage]
    rw [show ({ A1 with pages := A1.pages ++ R2ass } : Document).pages = A1.pages ++ R2ass from rfl]
    rw [← hA2pages, ← map_url_unassign A2.pages, hW, map_url_unassign]
    exact (normalized_startPage A hAnorm).symm
  have hA2end : A2.endPage = A.endPage := by
    rw [hA2eq, updatePageNumbers_endPage]
    rw [show ({ A1 with pages := A1.pages ++ R2ass } : Document).pages = A1.pages ++ R2ass from rfl]
    rw [← hA2pages, ← map_url_unassign A2.pages, hW, map_url_unassign]
    exact (normalized_endPage A hAnorm).symm
  refine ⟨_, i, A2, heval, hi, ?_, rfl, rfl, hA2ids, hW, hA2start, hA2end, hA2id⟩
  show ((moveResult s i j A1 R).documents.set j B2).set i
      (moveResultDoc ((moveResult s i j A1 R).documents.set j B2) i R2) = s.documents.set i A2
  rw [hs1docs]
  rw [← hA2def]
  exact hdocsFinal

/-- Witness for C7 (amended) at a concrete split with distinct page
numbers. -/
theorem movePages_roundTrip_restores_witness :
    ∃ s2 i A2,
      ((splitAB2.movePages "A" "B" ["x"]).1).movePages "B" "A" ["x"] = (s2, none) ∧
      lastIdx? (fun d => d.id = "A") splitAB2.documents = some i ∧
      s2.documents = splitAB2.documents.set i A2 ∧
      s2.unassignedPages = splitAB2.unassignedPages ∧
      s2.status = splitAB2.status ∧
      A2.pageIDs = (splitAB2.documents.getD i default).pageIDs ∧
      A2.pages.map Page.unassign = (splitAB2.documents.getD i default).pages.map Page.unassign ∧
      A2.startPage = (splitAB2.documents.getD i default).startPage ∧
      A2.endPage = (splitAB2.documents.getD i default).endPage ∧
      A2.id = (splitAB2.documents.getD i default).id :=
  movePages_roundTrip_restores splitAB2 "A" "B" ["x"] ((splitAB2.movePages "A" "B" ["x"]).1)
    (by decide) (by decide) (by decide) (by decide)

/-- C3 is refuted as stated: saving `splitC` (one document whose page
list is `[page 2, page 10]`, ascending as the domain maintains it) into
an empty database and loading it back yields the pages in the order
`[page 10, page 2]` — `pages.page_number` is a TEXT column, so `ORDER
BY page_number` compares decimal strings and `"10" < "2"`.  Membership
and IDs survive; the within-document order does not. -/
theorem save_get_pageOrder_counterexample :
    (SplitRepositorySQL.get (SplitRepositorySQL.save dbEmpty splitC) splitC.id).map
        (fun s => s.documents.map Document.pageIDs) = some [["p10", "p2"]] ∧
      splitC.documents.map Document.pageIDs = [["p2", "p10"]] := by decide

/-! ## Generic facts about the upsert and `ORDER BY` building blocks -/

/-- An upsert on a table with unique keys: in-place update or append,
either way a permutation of "drop the old row, append the new one". -/
theorem upsertBy_perm {α : Type} (key : α → String) (t : List α) (x : α)
    (h : (t.map key).Nodup) :
    List.Perm (upsertBy key t x) (t.filter (fun r => !(key r = key x)) ++ [x]) := by
  induction t with
  | nil => simp [upsertBy]
  | cons a as ih =>
    simp only [List.map_cons, List.nodup_cons] at h
    by_cases ha : key a = key x
    · have hrest : ∀ r ∈ as, ¬ (key r = key x) := fun r hr hrx =>
        h.1 (by rw [ha, ← hrx]; exact List.mem_map_of_mem key hr)
      have hany : (a :: as).any (fun r => key r = key x) = true := by
        simp [List.any_cons, ha]
      have hmap : as.map (fun r => if key r = key x then x else r) = as := by
        refine (List.map_congr_left ?_).trans (List.map_id as)
        intro r hr
        simp [hrest r hr]
      rw [upsertBy, if_pos hany, List.map_cons, if_pos ha, hmap]
      rw [List.filter_cons, if_neg (by simp [ha])]
      rw [List.filter_eq_self.mpr (fun r hr => by simpa using hrest r hr)]
      exact (List.perm_append_singleton x as).symm
    · have hstep : upsertBy key (a :: as) x = a :: upsertBy key as x := by
        unfold upsertBy
        by_cases h2 : as.any (fun r => key r = key x) = true
        · rw [if_pos (by simp [List.any_cons, h2]), if_pos h2, List.map_cons, if_neg ha]
        · rw [if_neg (by simp [List.any_cons, ha, h2]), if_neg h2]
          simp
      rw [hstep, List.filter_cons, if_pos (by simp [ha]), List.cons_append]
      exact (ih h.2).cons a

/-- Upserting keeps table keys unique. -/
theorem upsertBy_keys_nodup {α : Type} (key : α → String) (t : List α) (x : α)
    (h : (t.map key).Nodup) : ((upsertBy key t x).map key).Nodup := by
  refine ((upsertBy_perm key t x h).map key).nodup_iff.mpr ?_
  rw [List.map_append]
  refine List.Nodup.append ?_ (by simp) ?_
  · exact h.sublist ((List.filter_sublist t).map key)
  · intro k hk1 hk2
    simp only [List.map_cons, List.map_nil, List.mem_singleton] at hk2
    subst hk2
    obtain ⟨r, hr, hkr⟩ := List.mem_map.mp hk1
    have hpr := List.of_mem_filter hr
    simp only [Bool.not_eq_true', decide_eq_false_iff_not] at hpr
    exact hpr hkr

/-- A run of upserts with pairwise-distinct incoming keys: a permutation
of "drop every overwritten row, append all the new ones". -/
theorem foldl_upsertBy_perm {α : Type} (key : α → String) (items : List α) (t : List α)
    (ht : (t.map key).Nodup) (hi : (items.map key).Nodup) :
    List.Perm (items.foldl (upsertBy key) t)
      (t.filter (fun r => !(key r ∈ items.map key)) ++ items) := by
  induction items generalizing t with
  | nil => simp
  | cons x rest ih =>
    simp only [List.map_cons, List.nodup_cons] at hi
    have h2 := ih (upsertBy key t x) (upsertBy_keys_nodup key t x ht) hi.2
    simp only [List.foldl_cons]
    refine h2.trans ?_
    have h3 := (upsertBy_perm key t x ht).filter
      (fun r => !(key r ∈ rest.map key))
    rw [List.filter_append] at h3
    have hx : [x].filter (fun r => !(key r ∈ rest.map key)) = [x] :=
      List.filter_eq_self.mpr (by
        intro a ha
        rw [List.mem_singleton] at ha
        subst ha
        simp only [decide_eq_false hi.1, Bool.not_false])
    rw [hx] at h3
    have hff : (t.filter (fun r => !(key r = key x))).filter
        (fun r => !(key r ∈ rest.map key)) =
        t.filter (fun r => !(key r ∈ (x :: rest).map key)) := by
      rw [List.filter_filter]
      refine List.filter_congr fun r _ => ?_
      by_cases hx1 : key r = key x <;> by_cases hx2 : key r ∈ rest.map key <;>
        simp [hx1, hx2]
    rw [hff] at h3
    refine (h3.append_right rest).trans ?_
    rw [List.append_assoc, List.singleton_append]

/-- Keys stay unique across a run of upserts. -/
theorem foldl_upsertBy_keys_nodup {α : Type} (key : α → String) (items : List α) (t : List α)
    (ht : (t.map key).Nodup) (hi : (items.map key).Nodup) :
    ((items.foldl (upsertBy key) t).map key).Nodup := by
  induction items generalizing t with
  | nil => simpa
  | cons x rest ih =>
    simp only [List.map_cons, List.nodup_cons] at hi
    exact ih (upsertBy key t x) (upsertBy_keys_nodup key t x ht) hi.2

/-- Two sorted lists with pairwise-distinct sort keys that are
permutations of each other are equal (the list an `ORDER BY` returns is
determined once the keys are distinct). -/
theorem perm_sorted_key_eq {α κ : Type} [LinearOrder κ] (key : α → κ) (l1 l2 : List α)
    (h : List.Perm l1 l2)
    (s1 : l1.Pairwise (fun a b => key a ≤ key b))
    (s2 : l2.Pairwise (fun a b => key a ≤ key b))
    (hnd : (l1.map key).Nodup) : l1 = l2 := by
  induction l1 generalizing l2 with
  | nil => exact h.nil_eq
  | cons a as ih =>
    cases l2 with
    | nil => exact absurd h.symm.nil_eq (by simp)
    | cons b bs =>
      simp only [List.map_cons, List.nodup_cons] at hnd
      have hab : a = b := by
        by_contra hne
        have hamem : a ∈ b :: bs := h.mem_iff.mp (by simp)
        have hbmem : b ∈ a :: as := h.mem_iff.mpr (by simp)
        have ha2 : a ∈ bs := by
          cases List.mem_cons.mp hamem with
          | inl hh => exact absurd hh hne
          | inr hh => exact hh
        have hb2 : b ∈ as := by
          cases List.mem_cons.mp hbmem with
          | inl hh => exact absurd hh.symm hne
          | inr hh => exact hh
        have hle1 : key a ≤ key b := (List.pairwise_cons.mp s1).1 b hb2
        have hle2 : key b ≤ key a := (List.pairwise_cons.mp s2).1 a ha2
        exact hnd.1 ((le_antisymm hle1 hle2) ▸ List.mem_map_of_mem key hb2)
      subst hab
      exact congrArg (a :: ·) (ih bs h.cons_inv (List.pairwise_cons.mp s1).2
        (List.pairwise_cons.mp s2).2 hnd.2)

/-- `orderedInsert` commutes with an order-reflecting map. -/
theorem orderedInsert_map {α β : Type} (f : α → β) (r : α → α → Prop) (r2 : β → β → Prop)
    [DecidableRel r] [DecidableRel r2] (hf : ∀ a b, r a b ↔ r2 (f a) (f b)) (x : α) :
    ∀ l : List α, List.orderedInsert r2 (f x) (l.map f) = (List.orderedInsert r x l).map f
  | [] => rfl
  | a :: as => by
    simp only [List.map_cons, List.orderedInsert]
    by_cases h : r x a
    · rw [if_pos ((hf x a).1 h), if_pos h, List.map_cons, List.map_cons]
    · rw [if_neg (fun h2 => h ((hf x a).2 h2)), if_neg h, List.map_cons,
        orderedInsert_map f r r2 hf x as]

/-- `insertionSort` commutes with an order-reflecting map (sorting rows
by a column is sorting the underlying values by the same key). -/
theorem insertionSort_map {α β : Type} (f : α → β) (r : α → α → Prop) (r2 : β → β → Prop)
    [DecidableRel r] [DecidableRel r2] (hf : ∀ a b, r a b ↔ r2 (f a) (f b)) :
    ∀ l : List α, List.insertionSort r2 (l.map f) = (List.insertionSort r l).map f
  | [] => rfl
  | a :: as => by
    simp only [List.map_cons, List.insertionSort]
    rw [insertionSort_map f r r2 hf as, orderedInsert_map f r r2 hf]

/-! ## Decomposing `Save` into its table effects -/

/-- `l.contains` on strings is membership. -/
theorem contains_iff (l : List String) (x : String) : l.contains x = true ↔ x ∈ l := by
  simp

theorem foldl_saveDocument_splits (docs : List Document) (db : DB) :
    (docs.foldl SplitRepositorySQL.saveDocument db).splits = db.splits := by
  induction docs generalizing db with
  | nil => rfl
  | cons d rest ih => rw [List.foldl_cons, ih]; rfl

theorem foldl_saveDocument_documents (docs : List Document) (db : DB) :
    (docs.foldl SplitRepositorySQL.saveDocument db).documents =
      (docs.map SplitRepositorySQL.docRowOf).foldl (upsertBy DocumentRow.id) db.documents := by
  induction docs generalizing db with
  | nil => rfl
  | cons d rest ih => rw [List.foldl_cons, List.map_cons, List.foldl_cons, ih]; rfl

theorem foldl_saveDocument_pages (docs : List Document) (db : DB) :
    (docs.foldl SplitRepositorySQL.saveDocument db).pages =
      (docs.flatMap (fun d => d.pages.map (SplitRepositorySQL.pageRowOf (some d.id)))).foldl
        (upsertBy PageRow.id) db.pages := by
  induction docs generalizing db with
  | nil => rfl
  | cons d rest ih =>
    rw [List.foldl_cons, List.flatMap_cons, List.foldl_append, ih]
    congr 1
    show (SplitRepositorySQL.saveDocument db d).pages = _
    simp [SplitRepositorySQL.saveDocument, List.foldl_map]

/-- The `splits` table after `Save` is just the upserted split row. -/
theorem save_splits_eq (db : DB) (s : Split) :
    (SplitRepositorySQL.save db s).splits = SplitRepositorySQL.saveSplitRow db.splits s :=
  foldl_saveDocument_splits s.documents
    (SplitRepositorySQL.deleteStalePages
      (SplitRepositorySQL.deleteStaleDocs
        { db with splits := SplitRepositorySQL.saveSplitRow db.splits s } s) s)

/-- The `documents` table after `Save`: stale rows deleted, then one
upsert per document of the aggregate. -/
theorem save_documents_eq (db : DB) (s : Split) :
    (SplitRepositorySQL.save db s).documents =
      (s.documents.map SplitRepositorySQL.docRowOf).foldl (upsertBy DocumentRow.id)
        (db.documents.filter
          (fun r => !(SplitRepositorySQL.staleDocIDs db.documents s).contains r.id)) :=
  foldl_saveDocument_documents s.documents
    (SplitRepositorySQL.deleteStalePages
      (SplitRepositorySQL.deleteStaleDocs
        { db with splits := SplitRepositorySQL.saveSplitRow db.splits s } s) s)

/-- The `pages` table after `Save`: both delete passes, then one upsert
per page of the aggregate, documents first, pool last. -/
theorem save_pages_eq (db : DB) (s : Split) :
    (SplitRepositorySQL.save db s).pages =
      (SplitRepositorySQL.pageRowsOf s).foldl (upsertBy PageRow.id) (basePages db s) := by
  show (SplitRepositorySQL.saveUnassignedPages _ s).pages = _
  have h := foldl_saveDocument_pages s.documents
    (SplitRepositorySQL.deleteStalePages
      (SplitRepositorySQL.deleteStaleDocs
        { db with splits := SplitRepositorySQL.saveSplitRow db.splits s } s) s)
  show (s.unassignedPages.foldl
      (fun t p => upsertBy PageRow.id t (SplitRepositorySQL.pageRowOf none p))
      (s.documents.foldl SplitRepositorySQL.saveDocument _).pages) = _
  rw [h, SplitRepositorySQL.pageRowsOf, List.foldl_append, ← List.foldl_map
    (SplitRepositorySQL.pageRowOf none) (upsertBy PageRow.id)]
  rfl

/-- The keys `Save` writes to the `pages` table are exactly the page IDs
of the aggregate, in `pageIDLocations` order. -/
theorem pageRowsOf_keys (s : Split) :
    (SplitRepositorySQL.pageRowsOf s).map PageRow.id = s.pageIDLocations := by
  unfold SplitRepositorySQL.pageRowsOf Split.pageIDLocations
  rw [List.map_append]
  congr 1
  · induction s.documents with
    | nil => rfl
    | cons d rest ih =>
      rw [List.flatMap_cons, List.map_append, ih, List.map_cons, List.flatten_cons]
      congr 1
      simp [Document.pageIDs, List.map_map, Function.comp, SplitRepositorySQL.pageRowOf]
  · simp [List.map_map, Function.comp, SplitRepositorySQL.pageRowOf]

/-- The base table is drawn from the original one. -/
theorem basePages_sublist (db : DB) (s : Split) : (basePages db s).Sublist db.pages :=
  (List.filter_sublist _).trans (List.filter_sublist _)

/-- Rows surviving both delete passes but overwritten by no upsert
belong to other splits: a surviving row of this split would have to
carry a kept page ID. -/
theorem basePages_other (db : DB) (s : Split) (r : PageRow) (hr : r ∈ basePages db s)
    (hid : r.id ∉ s.pageIDLocations) : r.splitID ≠ s.id := by
  intro hsplit
  unfold basePages at hr
  rw [List.mem_filter] at hr
  obtain ⟨hr1, hr2⟩ := hr
  rw [Bool.not_eq_true', ← Bool.not_eq_true] at hr2
  apply hr2
  rw [contains_iff]
  unfold SplitRepositorySQL.stalePageIDs
  rw [List.mem_filter]
  constructor
  · exact List.mem_map_of_mem PageRow.id (List.mem_filter.mpr ⟨hr1, by simp [hsplit]⟩)
  · simp only [Bool.not_eq_true']
    rw [← Bool.not_eq_true, contains_iff]
    exact fun h => hid h

/-- What `Save` leaves in the `pages` table: a permutation of the
untouched rows of other splits (`R`) followed by the aggregate's rows,
with unique keys throughout. -/
theorem save_pages_char (db : DB) (s : Split)
    (hP : (db.pages.map PageRow.id).Nodup) (hown : s.pageIDLocations.Nodup) :
    ∃ R : List PageRow,
      List.Perm (SplitRepositorySQL.save db s).pages (R ++ SplitRepositorySQL.pageRowsOf s) ∧
      (∀ r ∈ R, r ∈ db.pages ∧ r.splitID ≠ s.id ∧ r.id ∉ s.pageIDLocations) ∧
      ((SplitRepositorySQL.save db s).pages.map PageRow.id).Nodup := by
  have hbase : ((basePages db s).map PageRow.id).Nodup :=
    hP.sublist ((basePages_sublist db s).map PageRow.id)
  have hkeys : (SplitRepositorySQL.pageRowsOf s).map PageRow.id = s.pageIDLocations :=
    pageRowsOf_keys s
  have hrows : ((SplitRepositorySQL.pageRowsOf s).map PageRow.id).Nodup := by
    rw [hkeys]; exact hown
  refine ⟨(basePages db s).filter (fun r => !(r.id ∈ s.pageIDLocations)), ?_, ?_, ?_⟩
  · rw [save_pages_eq]
    have h := foldl_upsertBy_perm PageRow.id (SplitRepositorySQL.pageRowsOf s)
      (basePages db s) hbase hrows
    rw [hkeys] at h
    exact h
  · intro r hr
    rw [List.mem_filter] at hr
    obtain ⟨hr1, hr2⟩ := hr
    simp only [Bool.not_eq_true', decide_eq_false_iff_not] at hr2
    exact ⟨(basePages_sublist db s).mem hr1, basePages_other db s r hr1 hr2, hr2⟩
  · rw [save_pages_eq]
    exact foldl_upsertBy_keys_nodup PageRow.id (SplitRepositorySQL.pageRowsOf s)
      (basePages db s) hbase hrows

/-- A surviving, never-overwritten document row belongs to another
split. -/
theorem baseDocs_other (db : DB) (s : Split) (r : DocumentRow) (hr : r ∈ baseDocs db s)
    (hid : r.id ∉ s.documents.map Document.id) : r.splitID ≠ s.id := by
  intro hsplit
  unfold baseDocs at hr
  rw [List.mem_filter] at hr
  obtain ⟨hr1, hr2⟩ := hr
  rw [Bool.not_eq_true', ← Bool.not_eq_true] at hr2
  apply hr2
  rw [contains_iff]
  unfold SplitRepositorySQL.staleDocIDs
  rw [List.mem_filter]
  constructor
  · exact List.mem_map_of_mem DocumentRow.id (List.mem_filter.mpr ⟨hr1, by simp [hsplit]⟩)
  · simp only [Bool.not_eq_true']
    rw [← Bool.not_eq_true, contains_iff]
    exact fun h => hid h

/-- The document keys `Save` writes are the aggregate's document IDs. -/
theorem docRowsOf_keys (s : Split) :
    ((s.documents.map SplitRepositorySQL.docRowOf).map DocumentRow.id) =
      s.documents.map Document.id := by
  simp [List.map_map, Function.comp, SplitRepositorySQL.docRowOf]

/-- What `Save` leaves in the `documents` table. -/
theorem save_documents_char (db : DB) (s : Split)
    (hD : (db.documents.map DocumentRow.id).Nodup)
    (hdocids : (s.documents.map Document.id).Nodup) :
    ∃ R : List DocumentRow,
      List.Perm (SplitRepositorySQL.save db s).documents
        (R ++ s.documents.map SplitRepositorySQL.docRowOf) ∧
      (∀ r ∈ R, r ∈ db.documents ∧ r.splitID ≠ s.id ∧ r.id ∉ s.documents.map Document.id) ∧
      ((SplitRepositorySQL.save db s).documents.map DocumentRow.id).Nodup := by
  have hbase : ((baseDocs db s).map DocumentRow.id).Nodup :=
    hD.sublist ((List.filter_sublist _).map DocumentRow.id)
  have hrows : ((s.documents.map SplitRepositorySQL.docRowOf).map DocumentRow.id).Nodup := by
    rw [docRowsOf_keys]; exact hdocids
  refine ⟨(baseDocs db s).filter (fun r => !(r.id ∈ s.documents.map Document.id)), ?_, ?_, ?_⟩
  · rw [save_documents_eq]
    have h := foldl_upsertBy_perm DocumentRow.id (s.documents.map SplitRepositorySQL.docRowOf)
      (baseDocs db s) hbase hrows
    rw [docRowsOf_keys] at h
    exact h
  · intro r hr
    rw [List.mem_filter] at hr
    obtain ⟨hr1, hr2⟩ := hr
    simp only [Bool.not_eq_true', decide_eq_false_iff_not] at hr2
    exact ⟨(List.filter_sublist _).mem hr1, baseDocs_other db s r hr1 hr2, hr2⟩
  · rw [save_documents_eq]
    exact foldl_upsertBy_keys_nodup DocumentRow.id
      (s.documents.map SplitRepositorySQL.docRowOf) (baseDocs db s) hbase hrows

/-- The map pass of the split-row upsert keeps a first match for the id. -/
theorem find?_update_split (s : Split) (t : List SplitRow) :
    t.any (fun r => r.id = s.id) = true →
    ∃ row, (t.map (fun r =>
        if r.id = s.id then
          { r with clientID := s.clientID, status := s.status, updatedAt := s.updatedAt }
        else r)).find? (fun r => r.id = s.id) = some row ∧
      row.id = s.id ∧ row.clientID = s.clientID ∧ row.status = s.status ∧
      row.updatedAt = s.updatedAt := by
  induction t with
  | nil => intro h; simp at h
  | cons a as ih =>
    intro h
    by_cases ha : a.id = s.id
    · rw [List.map_cons, if_pos ha]
      rw [List.find?_cons_of_pos _ (by simp [ha])]
      exact ⟨_, rfl, ha, rfl, rfl, rfl⟩
    · rw [List.map_cons, if_neg ha]
      have h2 : as.any (fun r => r.id = s.id) = true := by
        simp only [List.any_cons] at h
        rcases Bool.or_eq_true_iff.mp h with h3 | h3
        · exact absurd (by simpa using h3) ha
        · exact h3
      obtain ⟨row, hrow, hp⟩ := ih h2
      exact ⟨row, by rw [List.find?_cons_of_neg _ (by simp [ha])]; exact hrow, hp⟩

/-- `Get`'s split-row lookup after `Save`: some row with this split's
id, client, status and update stamp is found. -/
theorem find?_saveSplitRow (t : List SplitRow) (s : Split) :
    ∃ row, (SplitRepositorySQL.saveSplitRow t s).find? (fun r => r.id = s.id) = some row ∧
      row.id = s.id ∧ row.clientID = s.clientID ∧ row.status = s.status ∧
      row.updatedAt = s.updatedAt := by
  unfold SplitRepositorySQL.saveSplitRow
  by_cases h : t.any (fun r => r.id = s.id) = true
  · rw [if_pos h]
    exact find?_update_split s t h
  · rw [if_neg h]
    refine ⟨⟨s.id, s.clientID, s.status, s.createdAt, s.updatedAt⟩, ?_, rfl, rfl, rfl, rfl⟩
    rw [List.find?_append]
    have hnone : t.find? (fun r => r.id = s.id) = none := by
      rw [List.find?_eq_none]
      intro x hx
      have h3 := List.any_eq_false.mp (Bool.eq_false_iff.mpr h) x hx
      simpa using h3
    rw [hnone]
    simp [List.find?_cons]

/-! ## What the reads return on a saved table -/

/-- Filtering a saved `pages` table by a document id yields exactly that
document's written rows (as a permutation). -/
theorem filter_docID_perm (T R : List PageRow) (s : Split) (d : Document)
    (hperm : List.Perm T (R ++ SplitRepositorySQL.pageRowsOf s))
    (hR : ∀ r ∈ R, r.documentID ≠ some d.id)
    (hd : d ∈ s.documents)
    (hdocids : (s.documents.map Document.id).Nodup) :
    List.Perm (T.filter (fun r => r.documentID = some d.id))
      (d.pages.map (SplitRepositorySQL.pageRowOf (some d.id))) := by
  have h1 := hperm.filter (fun r => r.documentID = some d.id)
  rw [List.filter_append] at h1
  have hRnil : R.filter (fun r => r.documentID = some d.id) = [] := by
    rw [List.filter_eq_nil_iff]
    intro r hr
    simp [hR r hr]
  rw [hRnil, List.nil_append] at h1
  refine h1.trans ?_
  obtain ⟨pre, post, hsp⟩ := List.append_of_mem hd
  rw [hsp, List.map_append, List.map_cons] at hdocids
  have hne : ∀ d2 ∈ pre ++ post, d2.id ≠ d.id := by
    intro d2 hd2 heq
    have := (List.nodup_cons.mp (List.nodup_middle.mp hdocids)).1
    rw [List.mem_append] at hd2
    rcases hd2 with h2 | h2
    · exact this (by rw [← heq]; exact List.mem_append_left _ (List.mem_map_of_mem _ h2))
    · exact this (by rw [← heq]; exact List.mem_append_right _ (List.mem_map_of_mem _ h2))
  rw [SplitRepositorySQL.pageRowsOf, List.filter_append]
  have hupart : (s.unassignedPages.map (SplitRepositorySQL.pageRowOf none)).filter
      (fun r => r.documentID = some d.id) = [] := by
    rw [List.filter_eq_nil_iff]
    intro r hr
    obtain ⟨p, hp, hpr⟩ := List.mem_map.mp hr
    subst hpr
    simp [SplitRepositorySQL.pageRowOf]
  rw [hupart, List.append_nil, hsp, List.flatMap_append, List.flatMap_cons,
    List.filter_append, List.filter_append]
  have hprenil : (pre.flatMap (fun d2 => d2.pages.map
      (SplitRepositorySQL.pageRowOf (some d2.id)))).filter
      (fun r => r.documentID = some d.id) = [] := by
    rw [List.filter_eq_nil_iff]
    intro r hr
    obtain ⟨d2, hd2, hr2⟩ := List.mem_flatMap.mp hr
    obtain ⟨p, hp, hpr⟩ := List.mem_map.mp hr2
    subst hpr
    simp only [SplitRepositorySQL.pageRowOf, decide_eq_true_eq, Option.some.injEq]
    exact fun h => hne d2 (List.mem_append_left _ hd2) h
  have hpostnil : (post.flatMap (fun d2 => d2.pages.map
      (SplitRepositorySQL.pageRowOf (some d2.id)))).filter
      (fun r => r.documentID = some d.id) = [] := by
    rw [List.filter_eq_nil_iff]
    intro r hr
    obtain ⟨d2, hd2, hr2⟩ := List.mem_flatMap.mp hr
    obtain ⟨p, hp, hpr⟩ := List.mem_map.mp hr2
    subst hpr
    simp only [SplitRepositorySQL.pageRowOf, decide_eq_true_eq, Option.some.injEq]
    exact fun h => hne d2 (List.mem_append_right _ hd2) h
  have hself : (d.pages.map (SplitRepositorySQL.pageRowOf (some d.id))).filter
      (fun r => r.documentID = some d.id) =
      d.pages.map (SplitRepositorySQL.pageRowOf (some d.id)) := by
    rw [List.filter_eq_self]
    intro r hr
    obtain ⟨p, hp, hpr⟩ := List.mem_map.mp hr
    subst hpr
    simp [SplitRepositorySQL.pageRowOf]
  rw [hprenil, hpostnil, hself, List.nil_append, List.append_nil]

/-- Sorting any permutation of a document's written rows and scanning
them back gives the reload normal form of its page list. -/
theorem sorted_rows_reload (L : List PageRow) (d : Document)
    (hfil : List.Perm L (d.pages.map (SplitRepositorySQL.pageRowOf (some d.id))))
    (htext : (d.pages.map (fun p => sqliteIntText p.pageNumber)).Nodup) :
    (List.insertionSort pageRowLE L).map SplitRepositorySQL.rowToPage =
      reloadedPages d.pages := by
  have heq : List.insertionSort pageRowLE L =
      List.insertionSort pageRowLE (d.pages.map (SplitRepositorySQL.pageRowOf (some d.id))) := by
    refine perm_sorted_key_eq (fun r => sqliteIntText r.pageNumber) _ _ ?_ ?_ ?_ ?_
    · exact (List.perm_insertionSort _ _).trans
        (hfil.trans (List.perm_insertionSort _ _).symm)
    · exact List.sorted_insertionSort pageRowLE _
    · exact List.sorted_insertionSort pageRowLE _
    · have hmap := ((List.perm_insertionSort pageRowLE L).trans hfil).map
        (fun r => sqliteIntText r.pageNumber)
      refine hmap.nodup_iff.mpr ?_
      rw [List.map_map]
      simpa [Function.comp, SplitRepositorySQL.pageRowOf] using htext
  rw [heq, insertionSort_map (SplitRepositorySQL.pageRowOf (some d.id)) pageTextLE pageRowLE
    (fun a b => Iff.rfl) d.pages, List.map_map]
  rfl

/-- Filtering a saved `pages` table for this split's unassigned rows
yields exactly the written pool rows (as a permutation). -/
theorem filter_unassigned_perm (T R : List PageRow) (s : Split)
    (hperm : List.Perm T (R ++ SplitRepositorySQL.pageRowsOf s))
    (hR : ∀ r ∈ R, r.splitID ≠ s.id)
    (hupsplit : ∀ p ∈ s.unassignedPages, p.splitID = s.id) :
    List.Perm (T.filter (fun r => r.splitID = s.id ∧ r.documentID = none))
      (s.unassignedPages.map (SplitRepositorySQL.pageRowOf none)) := by
  have h1 := hperm.filter (fun r => r.splitID = s.id ∧ r.documentID = none)
  rw [List.filter_append] at h1
  have hRnil : R.filter (fun r => r.splitID = s.id ∧ r.documentID = none) = [] := by
    rw [List.filter_eq_nil_iff]
    intro r hr
    simp [hR r hr]
  rw [hRnil, List.nil_append, SplitRepositorySQL.pageRowsOf, List.filter_append] at h1
  have hdocnil : (s.documents.flatMap (fun d2 => d2.pages.map
      (SplitRepositorySQL.pageRowOf (some d2.id)))).filter
      (fun r => r.splitID = s.id ∧ r.documentID = none) = [] := by
    rw [List.filter_eq_nil_iff]
    intro r hr
    obtain ⟨d2, hd2, hr2⟩ := List.mem_flatMap.mp hr
    obtain ⟨p, hp, hpr⟩ := List.mem_map.mp hr2
    subst hpr
    simp [SplitRepositorySQL.pageRowOf]
  have hself : (s.unassignedPages.map (SplitRepositorySQL.pageRowOf none)).filter
      (fun r => r.splitID = s.id ∧ r.documentID = none) =
      s.unassignedPages.map (SplitRepositorySQL.pageRowOf none) := by
    rw [List.filter_eq_self]
    intro r hr
    obtain ⟨p, hp, hpr⟩ := List.mem_map.mp hr
    subst hpr
    simp [SplitRepositorySQL.pageRowOf, hupsplit p hp]
  rw [hdocnil, hself, List.nil_append] at h1
  exact h1

/-- Like `sorted_rows_reload`, for the unassigned pool (`NULL`
`document_id` rows). -/
theorem sorted_pool_reload (L : List PageRow) (ps : List Page)
    (hfil : List.Perm L (ps.map (SplitRepositorySQL.pageRowOf none)))
    (htext : (ps.map (fun p => sqliteIntText p.pageNumber)).Nodup) :
    (List.insertionSort pageRowLE L).map SplitRepositorySQL.rowToPage = reloadedPages ps := by
  have heq : List.insertionSort pageRowLE L =
      List.insertionSort pageRowLE (ps.map (SplitRepositorySQL.pageRowOf none)) := by
    refine perm_sorted_key_eq (fun r => sqliteIntText r.pageNumber) _ _ ?_ ?_ ?_ ?_
    · exact (List.perm_insertionSort _ _).trans
        (hfil.trans (List.perm_insertionSort _ _).symm)
    · exact List.sorted_insertionSort pageRowLE _
    · exact List.sorted_insertionSort pageRowLE _
    · have hmap := ((List.perm_insertionSort pageRowLE L).trans hfil).map
        (fun r => sqliteIntText r.pageNumber)
      refine hmap.nodup_iff.mpr ?_
      rw [List.map_map]
      simpa [Function.comp, SplitRepositorySQL.pageRowOf] using htext
  rw [heq, insertionSort_map (SplitRepositorySQL.pageRowOf none) pageTextLE pageRowLE
    (fun a b => Iff.rfl) ps, List.map_map]
  rfl

/-- Filtering a saved `documents` table by this split's id yields
exactly the aggregate's written rows (as a permutation). -/
theorem filter_splitID_docs_perm (T R : List DocumentRow) (s : Split)
    (hperm : List.Perm T (R ++ s.documents.map SplitRepositorySQL.docRowOf))
    (hR : ∀ r ∈ R, r.splitID ≠ s.id)
    (hsplit : ∀ d ∈ s.documents, d.splitID = s.id) :
    List.Perm (T.filter (fun r => r.splitID = s.id))
      (s.documents.map SplitRepositorySQL.docRowOf) := by
  have h1 := hperm.filter (fun r => r.splitID = s.id)
  rw [List.filter_append] at h1
  have hRnil : R.filter (fun r => r.splitID = s.id) = [] := by
    rw [List.filter_eq_nil_iff]
    intro r hr
    simp [hR r hr]
  have hself : (s.documents.map SplitRepositorySQL.docRowOf).filter
      (fun r => r.splitID = s.id) = s.documents.map SplitRepositorySQL.docRowOf := by
    rw [List.filter_eq_self]
    intro r hr
    obtain ⟨d, hd, hdr⟩ := List.mem_map.mp hr
    subst hdr
    simp [SplitRepositorySQL.docRowOf, hsplit d hd]
  rw [hRnil, hself, List.nil_append] at h1
  exact h1

/-- The reload characterization: `Get` after `Save` finds the split and
returns its client, status and update stamp, a `nil` `FinalizedAt`, a
permutation of the documents in reload normal form, and the pool in
reload normal form.  The hypotheses are the uniqueness guarantees the
schema enforces (primary keys, no foreign rows pointing at this split's
documents), aggregate well-formedness, and pairwise-distinct page-number
texts per page list (ties in a TEXT `ORDER BY` have no specified
order). -/
theorem get_save_char (db : DB) (s : Split)
    (hD : (db.documents.map DocumentRow.id).Nodup)
    (hP : (db.pages.map PageRow.id).Nodup)
    (hnocol : ∀ r ∈ db.pages, ∀ d ∈ s.documents, r.documentID = some d.id → r.splitID = s.id)
    (hdocids : (s.documents.map Document.id).Nodup)
    (hown : s.pageIDLocations.Nodup)
    (hsplit : ∀ d ∈ s.documents, d.splitID = s.id)
    (hupsplit : ∀ p ∈ s.unassignedPages, p.splitID = s.id)
    (hdoctext : ∀ d ∈ s.documents, (d.pages.map (fun p => sqliteIntText p.pageNumber)).Nodup)
    (hpooltext : (s.unassignedPages.map (fun p => sqliteIntText p.pageNumber)).Nodup) :
    ∃ s2, SplitRepositorySQL.get (SplitRepositorySQL.save db s) s.id = some s2 ∧
      s2.id = s.id ∧ s2.clientID = s.clientID ∧ s2.status = s.status ∧
      s2.updatedAt = s.updatedAt ∧ s2.finalizedAt = none ∧
      List.Perm s2.documents (s.documents.map reloadedDocument) ∧
      s2.unassignedPages = reloadedPages s.unassignedPages := by
  obtain ⟨R, hperm, hRfacts, hnodup⟩ := save_pages_char db s hP hown
  obtain ⟨RD, hdperm, hRDfacts, hdnodup⟩ := save_documents_char db s hD hdocids
  obtain ⟨row, hfind, hrid, hrclient, hrstatus, hrupd⟩ := find?_saveSplitRow db.splits s
  have hfind2 : (SplitRepositorySQL.save db s).splits.find? (fun r => r.id = s.id) = some row := by
    rw [save_splits_eq]
    exact hfind
  have hgetp : ∀ d ∈ s.documents,
      SplitRepositorySQL.getPages (SplitRepositorySQL.save db s) d.id =
        reloadedPages d.pages := by
    intro d hd
    refine sorted_rows_reload _ d (filter_docID_perm _ R s d hperm ?_ hd hdocids)
      (hdoctext d hd)
    intro r hr hrd
    obtain ⟨hmem, hsp, _⟩ := hRfacts r hr
    exact hsp (hnocol r hmem d hd hrd)
  have hdocs : List.Perm
      (SplitRepositorySQL.getDocuments (SplitRepositorySQL.save db s) s.id)
      (s.documents.map reloadedDocument) := by
    have hfil := filter_splitID_docs_perm (SplitRepositorySQL.save db s).documents RD s hdperm
      (fun r hr => (hRDfacts r hr).2.1) hsplit
    have hsortperm : List.Perm
        (List.insertionSort docRowLE
          ((SplitRepositorySQL.save db s).documents.filter (fun r => r.splitID = s.id)))
        (s.documents.map SplitRepositorySQL.docRowOf) :=
      (List.perm_insertionSort _ _).trans hfil
    have hmapped := hsortperm.map (SplitRepositorySQL.rowToDocument (SplitRepositorySQL.save db s))
    refine hmapped.trans ?_
    rw [List.map_map]
    refine List.Perm.of_eq (List.map_congr_left ?_)
    intro d hd
    show SplitRepositorySQL.rowToDocument _ (SplitRepositorySQL.docRowOf d) = reloadedDocument d
    unfold SplitRepositorySQL.rowToDocument SplitRepositorySQL.docRowOf reloadedDocument
    simp only
    rw [hgetp d hd]
  have hpool : SplitRepositorySQL.getUnassignedPages (SplitRepositorySQL.save db s) s.id =
      reloadedPages s.unassignedPages := by
    refine sorted_pool_reload _ _ (filter_unassigned_perm _ R s hperm ?_ hupsplit) hpooltext
    exact fun r hr => (hRfacts r hr).2.1
  have hget : SplitRepositorySQL.get (SplitRepositorySQL.save db s) s.id =
      some { id := row.id, clientID := row.clientID, status := row.status,
             documents := SplitRepositorySQL.getDocuments (SplitRepositorySQL.save db s) s.id,
             unassignedPages :=
               SplitRepositorySQL.getUnassignedPages (SplitRepositorySQL.save db s) s.id,
             createdAt := row.createdAt, updatedAt := row.updatedAt, finalizedAt := none } := by
    unfold SplitRepositorySQL.get
    rw [hfind2]
  exact ⟨_, hget, hrid, hrclient, hrstatus, hrupd, rfl, hdocs, hpool⟩

/-! ## C3 (amended): the save/load round trip -/

/-- C3 (amended): saving a Split and loading it by ID reproduces the
split's identity, client, status, document metadata, and page
membership; document order may differ (a permutation), but each
document comes back in reload normal form: the same pages with
`DocumentID` cleared, ordered by the TEXT (decimal-string) comparison
of `page_number` — not necessarily the original order (see the
counterexample), though the two agree whenever the decimal strings of a
document's page numbers compare like the numbers themselves.  The
hypotheses are the schema's primary keys, absence of foreign rows
pointing into this split, aggregate well-formedness, and
pairwise-distinct page-number texts per page list. -/
theorem save_get_roundTrip (db : DB) (s : Split)
    (hD : (db.documents.map DocumentRow.id).Nodup)
    (hP : (db.pages.map PageRow.id).Nodup)
    (hnocol : ∀ r ∈ db.pages, ∀ d ∈ s.documents, r.documentID = some d.id → r.splitID = s.id)
    (hdocids : (s.documents.map Document.id).Nodup)
    (hown : s.pageIDLocations.Nodup)
    (hsplit : ∀ d ∈ s.documents, d.splitID = s.id)
    (hupsplit : ∀ p ∈ s.unassignedPages, p.splitID = s.id)
    (hdoctext : ∀ d ∈ s.documents, (d.pages.map (fun p => sqliteIntText p.pageNumber)).Nodup)
    (hpooltext : (s.unassignedPages.map (fun p => sqliteIntText p.pageNumber)).Nodup) :
    ∃ s2, SplitRepositorySQL.get (SplitRepositorySQL.save db s) s.id = some s2 ∧
      s2.id = s.id ∧ s2.clientID = s.clientID ∧ s2.status = s.status ∧
      s2.updatedAt = s.updatedAt ∧ s2.finalizedAt = none ∧
      List.Perm s2.documents (s.documents.map reloadedDocument) ∧
      s2.unassignedPages = reloadedPages s.unassignedPages :=
  get_save_char db s hD hP hnocol hdocids hown hsplit hupsplit hdoctext hpooltext

/-- Witness for C3 (amended) on the two-page fixture over an empty
database. -/
theorem save_get_roundTrip_witness :
    ∃ s2, SplitRepositorySQL.get (SplitRepositorySQL.save dbEmpty splitC) splitC.id = some s2 ∧
      s2.id = splitC.id ∧ s2.clientID = splitC.clientID ∧ s2.status = splitC.status ∧
      s2.updatedAt = splitC.updatedAt ∧ s2.finalizedAt = none ∧
      List.Perm s2.documents (splitC.documents.map reloadedDocument) ∧
      s2.unassignedPages = reloadedPages splitC.unassignedPages :=
  save_get_roundTrip dbEmpty splitC (by decide) (by decide) (by decide) (by decide)
    (by decide) (by decide) (by decide) (by decide) (by decide)

/-! ## C10: assignment is encoded by membership at the repository
boundary -/

/-- Erasing pages' in-memory marks changes nothing a document upsert
writes. -/
theorem saveDocument_clear (db : DB) (d : Document) :
    SplitRepositorySQL.saveDocument db { d with pages := d.pages.map Page.unassign } =
      SplitRepositorySQL.saveDocument db d := by
  unfold SplitRepositorySQL.saveDocument
  have hpages : ({ d with pages := d.pages.map Page.unassign } : Document).pages =
      d.pages.map Page.unassign := rfl
  rw [hpages, List.foldl_map]
  rfl

/-- Erasing pages' marks changes nothing about the aggregate's page-ID
index. -/
theorem clearPageMarks_locations (s : Split) :
    s.clearPageMarks.pageIDLocations = s.pageIDLocations := by
  unfold Split.clearPageMarks Split.pageIDLocations
  simp only [List.map_map]
  have h1 : (Document.pageIDs ∘ fun d : Document =>
      { d with pages := d.pages.map Page.unassign }) = Document.pageIDs := by
    funext d
    simp [Document.pageIDs, List.map_map, Function.comp, Page.unassign]
  have h2 : (Page.id ∘ Page.unassign) = Page.id := by
    funext p
    simp [Function.comp, Page.unassign]
  rw [h1, h2]

/-- Erasing pages' marks keeps the document IDs. -/
theorem clearPageMarks_docIDs (s : Split) :
    s.clearPageMarks.documents.map Document.id = s.documents.map Document.id := by
  unfold Split.clearPageMarks
  simp [List.map_map, Function.comp]

/-- `Save` never reads `Page.DocumentID`: saving the aggregate with all
marks erased writes the same database state. -/
theorem save_clearPageMarks (db : DB) (s : Split) :
    SplitRepositorySQL.save db s.clearPageMarks = SplitRepositorySQL.save db s := by
  have hsplitrow : ∀ t, SplitRepositorySQL.saveSplitRow t s.clearPageMarks =
      SplitRepositorySQL.saveSplitRow t s := fun t => rfl
  have hstaledocs : ∀ rows, SplitRepositorySQL.staleDocIDs rows s.clearPageMarks =
      SplitRepositorySQL.staleDocIDs rows s := by
    intro rows
    unfold SplitRepositorySQL.staleDocIDs
    rw [clearPageMarks_docIDs]
    rfl
  have hstalepages : ∀ rows, SplitRepositorySQL.stalePageIDs rows s.clearPageMarks =
      SplitRepositorySQL.stalePageIDs rows s := by
    intro rows
    unfold SplitRepositorySQL.stalePageIDs
    rw [clearPageMarks_locations]
    rfl
  have hdel1 : ∀ db2, SplitRepositorySQL.deleteStaleDocs db2 s.clearPageMarks =
      SplitRepositorySQL.deleteStaleDocs db2 s := by
    intro db2
    unfold SplitRepositorySQL.deleteStaleDocs
    rw [hstaledocs]
  have hdel2 : ∀ db2, SplitRepositorySQL.deleteStalePages db2 s.clearPageMarks =
      SplitRepositorySQL.deleteStalePages db2 s := by
    intro db2
    unfold SplitRepositorySQL.deleteStalePages
    rw [hstalepages]
  have hfold : ∀ db2, s.clearPageMarks.documents.foldl SplitRepositorySQL.saveDocument db2 =
      s.documents.foldl SplitRepositorySQL.saveDocument db2 := by
    intro db2
    show (s.documents.map _).foldl SplitRepositorySQL.saveDocument db2 = _
    rw [List.foldl_map]
    simp only [saveDocument_clear]
  have hunass : ∀ db2, SplitRepositorySQL.saveUnassignedPages db2 s.clearPageMarks =
      SplitRepositorySQL.saveUnassignedPages db2 s := by
    intro db2
    unfold SplitRepositorySQL.saveUnassignedPages
    show { db2 with pages := (s.unassignedPages.map Page.unassign).foldl _ db2.pages } = _
    rw [List.foldl_map]
    rfl
  unfold SplitRepositorySQL.save
  rw [hsplitrow, hdel1, hdel2, hfold, hunass]

/-- `Get` never surfaces the stored `document_id`: every page of every
loaded document carries `DocumentID = nil`. -/
theorem get_docPages_unassigned (db : DB) (id2 : String) (s2 : Split)
    (h : SplitRepositorySQL.get db id2 = some s2) :
    ∀ d ∈ s2.documents, ∀ p ∈ d.pages, p.documentID = none := by
  unfold SplitRepositorySQL.get at h
  cases hf : db.splits.find? (fun r => r.id = id2) with
  | none => rw [hf] at h; cases h
  | some row =>
    rw [hf] at h
    injection h with h
    subst h
    intro d hd p hp
    obtain ⟨r, _, hdr⟩ := List.mem_map.mp hd
    subst hdr
    obtain ⟨pr, _, hp2⟩ := List.mem_map.mp hp
    subst hp2
    rfl

/-- C10: at the repository boundary, assignment is encoded by list
membership, not by `Page.DocumentID`.  (1) `Save` writes the same
database whether or not the in-memory marks are erased — it never reads
the field; (2) the row `Save` writes for a document-owned page carries
`document_id = doc.ID`, taken from the document whose `Pages` list
holds the page; (3) every split `Get` returns has `DocumentID = nil` on
every page of every document, even though the stored rows of those
pages carry the non-NULL `document_id` of (2). -/
theorem repo_assignment_by_membership (db : DB) (s : Split)
    (hP : (db.pages.map PageRow.id).Nodup)
    (hown : s.pageIDLocations.Nodup) :
    SplitRepositorySQL.save db s.clearPageMarks = SplitRepositorySQL.save db s ∧
    (∀ d ∈ s.documents, ∀ p ∈ d.pages,
      SplitRepositorySQL.pageRowOf (some d.id) p ∈ (SplitRepositorySQL.save db s).pages) ∧
    (∀ id2 s2, SplitRepositorySQL.get db id2 = some s2 →
      ∀ d ∈ s2.documents, ∀ p ∈ d.pages, p.documentID = none) := by
  refine ⟨save_clearPageMarks db s, ?_, fun id2 s2 h => get_docPages_unassigned db id2 s2 h⟩
  intro d hd p hp
  obtain ⟨R, hperm, -, -⟩ := save_pages_char db s hP hown
  refine hperm.mem_iff.mpr ?_
  rw [List.mem_append]
  right
  rw [SplitRepositorySQL.pageRowsOf, List.mem_append]
  left
  exact List.mem_flatMap.mpr ⟨d, hd, List.mem_map_of_mem _ hp⟩

/-- Witness for C10 on a split whose in-memory pages carry stale marks:
`pageW` is marked as belonging to `"other"`, yet its stored row carries
`document_id = "W"`, the erased-marks save coincides, and the loaded
pages are unmarked. -/
theorem repo_assignment_by_membership_witness :
    SplitRepositorySQL.save dbEmpty splitW.clearPageMarks = SplitRepositorySQL.save dbEmpty splitW ∧
    (∀ d ∈ splitW.documents, ∀ p ∈ d.pages,
      SplitRepositorySQL.pageRowOf (some d.id) p ∈ (SplitRepositorySQL.save dbEmpty splitW).pages) ∧
    (∀ id2 s2, SplitRepositorySQL.get dbEmpty id2 = some s2 →
      ∀ d ∈ s2.documents, ∀ p ∈ d.pages, p.documentID = none) :=
  repo_assignment_by_membership dbEmpty splitW (by decide) (by decide)

/-! ## C4: reconciliation deletes removed documents and their rows -/

/-- Every page row `Save` writes carries the split's id (given the
aggregate's pages do). -/
theorem pageRowsOf_splitID (s : Split)
    (hpsplit : ∀ d ∈ s.documents, ∀ p ∈ d.pages, p.splitID = s.id)
    (hupsplit : ∀ p ∈ s.unassignedPages, p.splitID = s.id) :
    ∀ r ∈ SplitRepositorySQL.pageRowsOf s, r.splitID = s.id := by
  intro r hr
  rw [SplitRepositorySQL.pageRowsOf, List.mem_append] at hr
  rcases hr with hr | hr
  · obtain ⟨d2, hd2, hr2⟩ := List.mem_flatMap.mp hr
    obtain ⟨p, hp, hpr⟩ := List.mem_map.mp hr2
    subst hpr
    exact hpsplit d2 hd2 p hp
  · obtain ⟨p, hp, hpr⟩ := List.mem_map.mp hr
    subst hpr
    exact hupsplit p hp

set_option maxHeartbeats 1000000

/-- C4: starting from a database holding split `s` (first `Save`),
removing document `doc` from the aggregate and saving again leaves no
`documents` row with its id and no `pages` row whose `document_id`
references it, and a subsequent load returns the former pages in the
unassigned pool (in reload normal form: unassigned, text-sorted). -/
theorem save_remove_save (db : DB) (s : Split) (docID : String)
    (pre post : List Document) (doc : Document)
    (hD : (db.documents.map DocumentRow.id).Nodup)
    (hP : (db.pages.map PageRow.id).Nodup)
    (hnocol : ∀ r ∈ db.pages, ∀ d ∈ s.documents, r.documentID = some d.id → r.splitID = s.id)
    (hdocids : (s.documents.map Document.id).Nodup)
    (hown : s.pageIDLocations.Nodup)
    (hsplit : ∀ d ∈ s.documents, d.splitID = s.id)
    (hpsplit : ∀ d ∈ s.documents, ∀ p ∈ d.pages, p.splitID = s.id)
    (hupsplit : ∀ p ∈ s.unassignedPages, p.splitID = s.id)
    (hdoctext : ∀ d ∈ s.documents, (d.pages.map (fun p => sqliteIntText p.pageNumber)).Nodup)
    (hpooldoctext : ((s.unassignedPages ++ doc.pages).map
      (fun p => sqliteIntText p.pageNumber)).Nodup)
    (hs : s.status ≠ splitStatusFinalized)
    (hdocs : s.documents = pre ++ doc :: post)
    (hpre : ∀ d ∈ pre, d.id ≠ docID) (hdoc : doc.id = docID) :
    ∃ s2, s.removeDocument docID = .ok s2 ∧
      (∀ r ∈ (SplitRepositorySQL.save (SplitRepositorySQL.save db s) s2).documents,
        r.id ≠ docID) ∧
      (∀ r ∈ (SplitRepositorySQL.save (SplitRepositorySQL.save db s) s2).pages,
        r.documentID ≠ some docID) ∧
      ∃ s3, SplitRepositorySQL.get
          (SplitRepositorySQL.save (SplitRepositorySQL.save db s) s2) s.id = some s3 ∧
        s3.unassignedPages = reloadedPages (s.unassignedPages ++ doc.pages.map Page.unassign) ∧
        (∀ p ∈ doc.pages, p.id ∈ s3.unassignedPages.map Page.id) ∧
        (∀ q ∈ s3.unassignedPages, q.documentID = none) := by
  have hdocmem : doc ∈ s.documents := by
    rw [hdocs]
    exact List.mem_append_right _ (List.mem_cons_self doc post)
  have hmemto : ∀ d2 ∈ pre ++ post, d2 ∈ s.documents := by
    intro d2 hd2
    rw [hdocs]
    rw [List.mem_append] at hd2
    rcases hd2 with h | h
    · exact List.mem_append_left _ h
    · exact List.mem_append_right _ (List.mem_cons_of_mem doc h)
  have hId : docID ∉ (pre ++ post).map Document.id := by
    have hdocids1 := hdocids
    rw [hdocs, List.map_append, List.map_cons] at hdocids1
    have h1 := (List.nodup_cons.mp (List.nodup_middle.mp hdocids1)).1
    rw [List.map_append, ← hdoc]
    exact h1
  have hrm : s.removeDocument docID = .ok
      { s with documents := pre ++ post,
               unassignedPages := s.unassignedPages ++ doc.pages.map Page.unassign } := by
    unfold Split.removeDocument
    rw [if_neg hs, hdocs, removeDocLoop_found docID pre doc post hpre hdoc]
  set s2 : Split :=
    { s with documents := pre ++ post,
             unassignedPages := s.unassignedPages ++ doc.pages.map Page.unassign } with hs2
  obtain ⟨R1, hperm1, hR1, hnodup1⟩ := save_pages_char db s hP hown
  obtain ⟨RD1, hdperm1, hRD1, hdnodup1⟩ := save_documents_char db s hD hdocids
  have hrowsplit := pageRowsOf_splitID s hpsplit hupsplit
  have hdocids2 : (s2.documents.map Document.id).Nodup := by
    rw [hs2]
    have hsub : (pre ++ post).Sublist (pre ++ doc :: post) :=
      (List.sublist_cons_self doc post).append_left pre
    have hdocids1 := hdocids
    rw [hdocs] at hdocids1
    exact hdocids1.sublist (hsub.map Document.id)
  have hloop := removeDocLoop_found docID pre doc post hpre hdoc
  have hlp := removeDocLoop_ok_char docID (pre ++ doc :: post) (pre ++ post)
    (doc.pages.map Page.unassign) hloop
  have hlocperm : List.Perm s2.pageIDLocations s.pageIDLocations := by
    show List.Perm (((pre ++ post).map Document.pageIDs).flatten ++
        ((s.unassignedPages ++ doc.pages.map Page.unassign).map Page.id))
      ((s.documents.map Document.pageIDs).flatten ++ s.unassignedPages.map Page.id)
    nth_rewrite 2 [List.map_append]
    rw [hdocs]
    refine (List.Perm.append_left _ List.perm_append_comm).trans ?_
    rw [← List.append_assoc]
    exact List.Perm.append_right _ hlp
  have hown2 : s2.pageIDLocations.Nodup := hlocperm.nodup_iff.mpr hown
  have hsplit2 : ∀ d ∈ s2.documents, d.splitID = s2.id := by
    intro d hd
    exact hsplit d (hmemto d hd)
  have hupsplit2 : ∀ p ∈ s2.unassignedPages, p.splitID = s2.id := by
    intro p hp
    rw [hs2] at hp
    simp only [List.mem_append] at hp
    rcases hp with h | h
    · exact hupsplit p h
    · obtain ⟨q, hq, hqe⟩ := List.mem_map.mp h
      subst hqe
      exact hpsplit doc hdocmem q hq
  have hdoctext2 : ∀ d ∈ s2.documents,
      (d.pages.map (fun p => sqliteIntText p.pageNumber)).Nodup := by
    intro d hd
    exact hdoctext d (hmemto d hd)
  have hpooltext2 : (s2.unassignedPages.map (fun p => sqliteIntText p.pageNumber)).Nodup := by
    rw [hs2]
    show ((s.unassignedPages ++ doc.pages.map Page.unassign).map
      (fun p => sqliteIntText p.pageNumber)).Nodup
    rw [List.map_append] at hpooldoctext ⊢
    rw [List.map_map]
    have hcmp : ((fun p => sqliteIntText p.pageNumber) ∘ Page.unassign) =
        fun p : Page => sqliteIntText p.pageNumber := funext fun q => rfl
    rw [hcmp]
    exact hpooldoctext
  have hnocol2 : ∀ r ∈ (SplitRepositorySQL.save db s).pages, ∀ d ∈ s2.documents,
      r.documentID = some d.id → r.splitID = s2.id := by
    intro r hr d hd hrd
    rcases List.mem_append.mp (hperm1.mem_iff.mp hr) with h | h
    · obtain ⟨hmem, hsp, _⟩ := hR1 r h
      exact absurd (hnocol r hmem d (hmemto d hd) hrd) hsp
    · exact hrowsplit r h
  obtain ⟨R2, hperm2, hR2, hnodup2⟩ := save_pages_char (SplitRepositorySQL.save db s) s2
    hnodup1 hown2
  obtain ⟨RD2, hdperm2, hRD2, hdnodup2⟩ := save_documents_char (SplitRepositorySQL.save db s) s2
    hdnodup1 hdocids2
  obtain ⟨s3, hget, hid3, hcl3, hst3, hup3, hfin3, hdocs3, hpool3⟩ :=
    get_save_char (SplitRepositorySQL.save db s) s2 hdnodup1 hnodup1 hnocol2 hdocids2 hown2
      hsplit2 hupsplit2 hdoctext2 hpooltext2
  refine ⟨s2, hrm, ?_, ?_, s3, hget, ?_, ?_, ?_⟩
  · -- no document row keeps the removed id
    intro r hr hid
    rcases List.mem_append.mp (hdperm2.mem_iff.mp hr) with h | h
    · obtain ⟨hmem1, hsp2, _⟩ := hRD2 r h
      rcases List.mem_append.mp (hdperm1.mem_iff.mp hmem1) with h1 | h1
      · obtain ⟨_, _, hnotin⟩ := hRD1 r h1
        apply hnotin
        rw [hid, ← hdoc]
        exact List.mem_map_of_mem Document.id hdocmem
      · obtain ⟨d2, hd2, hdr⟩ := List.mem_map.mp h1
        subst hdr
        exact hsp2 (hsplit d2 hd2)
    · obtain ⟨d2, hd2, hdr⟩ := List.mem_map.mp h
      subst hdr
      apply hId
      rw [← hid]
      rw [hs2] at hd2
      exact List.mem_map_of_mem Document.id hd2
  · -- no page row references the removed id
    intro r hr hrd
    rcases List.mem_append.mp (hperm2.mem_iff.mp hr) with h | h
    · obtain ⟨hmem1, hsp2, _⟩ := hR2 r h
      rcases List.mem_append.mp (hperm1.mem_iff.mp hmem1) with h1 | h1
      · obtain ⟨hmemdb, hsp1, _⟩ := hR1 r h1
        exact hsp1 (hnocol r hmemdb doc hdocmem (by rw [hrd, hdoc]))
      · exact hsp2 (hrowsplit r h1)
    · rw [SplitRepositorySQL.pageRowsOf, List.mem_append] at h
      rcases h with h | h
      · obtain ⟨d2, hd2, hr2⟩ := List.mem_flatMap.mp h
        obtain ⟨p, hp, hpr⟩ := List.mem_map.mp hr2
        subst hpr
        have hd2id : d2.id = docID := by
          simp only [SplitRepositorySQL.pageRowOf, Option.some.injEq] at hrd
          exact hrd
        apply hId
        rw [← hd2id]
        rw [hs2] at hd2
        exact List.mem_map_of_mem Document.id hd2
      · obtain ⟨p, hp, hpr⟩ := List.mem_map.mp h
        subst hpr
        cases hrd
  · exact hpool3
  · -- the removed document's pages land in the reloaded pool
    intro p hp
    rw [hpool3, hs2]
    show p.id ∈ ((List.insertionSort pageTextLE
      (s.unassignedPages ++ doc.pages.map Page.unassign)).map Page.unassign).map Page.id
    rw [List.map_map]
    have hcomp : (Page.id ∘ Page.unassign) = Page.id := funext fun q => rfl
    rw [hcomp]
    refine ((List.perm_insertionSort pageTextLE _).map Page.id).mem_iff.mpr ?_
    rw [List.map_append]
    refine List.mem_append_right _ ?_
    rw [List.map_map, hcomp]
    exact List.mem_map_of_mem Page.id hp
  · -- every reloaded pool page is unassigned
    intro q hq
    rw [hpool3] at hq
    obtain ⟨pr, _, hq2⟩ := List.mem_map.mp hq
    subst hq2
    rfl

/-- Witness for C4: removing the only document of the two-page fixture
after a save, then saving and loading again. -/
theorem save_remove_save_witness :
    ∃ s2, splitC.removeDocument "dc" = .ok s2 ∧
      (∀ r ∈ (SplitRepositorySQL.save (SplitRepositorySQL.save dbEmpty splitC) s2).documents,
        r.id ≠ "dc") ∧
      (∀ r ∈ (SplitRepositorySQL.save (SplitRepositorySQL.save dbEmpty splitC) s2).pages,
        r.documentID ≠ some "dc") ∧
      ∃ s3, SplitRepositorySQL.get
          (SplitRepositorySQL.save (SplitRepositorySQL.save dbEmpty splitC) s2)
          splitC.id = some s3 ∧
        s3.unassignedPages =
          reloadedPages (splitC.unassignedPages ++ docC.pages.map Page.unassign) ∧
        (∀ p ∈ docC.pages, p.id ∈ s3.unassignedPages.map Page.id) ∧
        (∀ q ∈ s3.unassignedPages, q.documentID = none) :=
  save_remove_save dbEmpty splitC "dc" [] [] docC (by decide) (by decide) (by decide)
    (by decide) (by decide) (by decide) (by decide) (by decide) (by decide) (by decide)
    (by decide) (by decide) (by decide) (by decide)
